import Mathlib

/-!
Verification of the `dom-movement` library (src/src/dom-movement.ts).

The DOM tree is modelled as an arena of nodes: a node is an index into a
list of `NodeData` records carrying the node kind, the ordered list of
child indices, an optional parent index and a text length.  The host DOM
primitive `compareDocumentPosition` is modelled from the DOM standard via
paths from the root and lexicographic comparison; everything else
(`pointedCompare`, `DOMLoc`, `DOMSpace` and their methods) is translated
directly from the TypeScript source.
-/

set_option autoImplicit false

namespace DomMovement

/-- Node kinds supported by the library, plus `other` for everything else
(`Node.ELEMENT_NODE`, `Node.TEXT_NODE`, `Node.DOCUMENT_NODE`,
`Node.DOCUMENT_FRAGMENT_NODE` in the source). -/
inductive NodeKind where
  | element
  | text
  | document
  | documentFragment
  | other
deriving DecidableEq, Repr

/-- The data carried by one DOM node: its kind, the indices of its children
in order, its parent (if any) and, for text nodes, the character length. -/
structure NodeData where
  kind : NodeKind
  children : List Nat
  parent : Option Nat
  textLength : Nat
deriving DecidableEq, Repr

/-- The value used for out-of-range node indices: a childless, parentless
node of unsupported kind. -/
def defaultNodeData : NodeData := ⟨NodeKind.other, [], none, 0⟩

/-- A DOM forest: nodes are indices into `nodes`. -/
structure Arena where
  nodes : List NodeData
deriving DecidableEq, Repr

def Arena.data (a : Arena) (i : Nat) : NodeData := a.nodes.getD i defaultNodeData

/-- `node.nodeType` of the source. -/
def Arena.kindOf (a : Arena) (i : Nat) : NodeKind := (a.data i).kind

/-- `node.childNodes` of the source. -/
def Arena.childNodes (a : Arena) (i : Nat) : List Nat := (a.data i).children

/-- `node.parentNode` of the source. -/
def Arena.parentNode (a : Arena) (i : Nat) : Option Nat := (a.data i).parent

/-- `(node as Text).length` of the source. -/
def Arena.textLength (a : Arena) (i : Nat) : Nat := (a.data i).textLength

/-- Path of child indices leading from the root of the tree down to node
`i`; the fuel argument bounds the number of parent steps taken. -/
def Arena.pathAux (a : Arena) : Nat → Nat → List Nat
  | 0, _ => []
  | fuel + 1, i =>
    match a.parentNode i with
    | none => []
    | some p => a.pathAux fuel p ++ [(a.childNodes p).indexOf i]

/-- Path of child indices from the root down to node `i`.  In a
well-formed arena parents have strictly smaller indices, so fuel `i + 1`
always suffices. -/
def Arena.path (a : Arena) (i : Nat) : List Nat := a.pathAux (i + 1) i

def Arena.rootAux (a : Arena) : Nat → Nat → Nat
  | 0, i => i
  | fuel + 1, i =>
    match a.parentNode i with
    | none => i
    | some p => a.rootAux fuel p

/-- The root of the tree containing node `i`. -/
def Arena.rootOf (a : Arena) (i : Nat) : Nat := a.rootAux (i + 1) i

/-- `Node.DOCUMENT_POSITION_DISCONNECTED`. -/
def DOCUMENT_POSITION_DISCONNECTED : Nat := 1
/-- `Node.DOCUMENT_POSITION_PRECEDING`. -/
def DOCUMENT_POSITION_PRECEDING : Nat := 2
/-- `Node.DOCUMENT_POSITION_FOLLOWING`. -/
def DOCUMENT_POSITION_FOLLOWING : Nat := 4
/-- `Node.DOCUMENT_POSITION_CONTAINS`. -/
def DOCUMENT_POSITION_CONTAINS : Nat := 8
/-- `Node.DOCUMENT_POSITION_CONTAINED_BY`. -/
def DOCUMENT_POSITION_CONTAINED_BY : Nat := 16
/-- `Node.DOCUMENT_POSITION_IMPLEMENTATION_SPECIFIC`. -/
def DOCUMENT_POSITION_IMPLEMENTATION_SPECIFIC : Nat := 32

/-- Lexicographic comparison of two paths; a proper ancestor (a shorter
path that is a prefix) comes first, which is exactly document order. -/
def lexOrd : List Nat → List Nat → Ordering
  | [], [] => Ordering.eq
  | [], _ :: _ => Ordering.lt
  | _ :: _, [] => Ordering.gt
  | x :: xs, y :: ys =>
    if x < y then Ordering.lt
    else if y < x then Ordering.gt
    else lexOrd xs ys

/-- Model of the host DOM primitive `x.compareDocumentPosition(y)`,
following the DOM standard: the returned bit set describes the position of
`y` relative to `x`.  Nodes in different trees are disconnected; otherwise
document order is the lexicographic order of root paths and containment is
the (proper) prefix relation on root paths. -/
def Arena.cdp (a : Arena) (x y : Nat) : Nat :=
  if x = y then 0
  else if a.rootOf x ≠ a.rootOf y then
    DOCUMENT_POSITION_DISCONNECTED + DOCUMENT_POSITION_PRECEDING +
      DOCUMENT_POSITION_IMPLEMENTATION_SPECIFIC
  else
    let px := a.path x
    let py := a.path y
    if px.isPrefixOf py then
      DOCUMENT_POSITION_FOLLOWING + DOCUMENT_POSITION_CONTAINED_BY
    else if py.isPrefixOf px then
      DOCUMENT_POSITION_PRECEDING + DOCUMENT_POSITION_CONTAINS
    else
      -- In a well-formed arena distinct connected nodes have distinct
      -- paths, so the `eq` outcome folded into the second arm never
      -- arises.
      match lexOrd px py with
      | Ordering.lt => DOCUMENT_POSITION_FOLLOWING
      | _ => DOCUMENT_POSITION_PRECEDING

/-- `pointedCompare(node, offset, child)` of the source: compare the
location `[node, offset]` with a node known to be a child of `node`. -/
def pointedCompare (a : Arena) (node : Nat) (offset : Nat) (child : Nat) : Int :=
  match (a.childNodes node).get? offset with
  | none =>
    -- Undefined means we are after all other elements.
    1
  | some pointed =>
    if pointed = child ∨
        (a.cdp pointed child) &&& DOCUMENT_POSITION_FOLLOWING ≠ 0 then
      -1
    else
      1

/-- The error kinds raised by the library.  `internalError` stands for the
generic `Error` objects thrown on the paths the source marks as
unreachable, and `unsupportedNodeType` for the generic `Error` thrown by
`normalizedOffset` on an unsupported node kind. -/
inductive DOMErr where
  | domSpaceScopeError
  | cannotEscapeIrrelevantNode
  | reversedRangeError
  | comparingDisconnectedNodes
  | unsupportedNodeType
  | internalError
deriving DecidableEq, Repr

/-- `DOMLoc`: a pair of node and offset.  The source constructor throws on
a negative offset; offsets here are natural numbers. -/
structure DOMLoc where
  node : Nat
  offset : Nat
deriving DecidableEq, Repr

/-- `DOMLoc.makePointingTo`: the location in the parent pointing at
`node`; the source throws when `node` has no parent.  `List.indexOf` is
the JavaScript `indexOf` except when the element is absent (length here,
-1 in JavaScript); every call site looks up a known child, where the two
agree. -/
def DOMLoc.makePointingTo (a : Arena) (node : Nat) : Option DOMLoc :=
  match a.parentNode node with
  | none => none
  | some parent => some ⟨parent, (a.childNodes parent).indexOf node⟩

/-- `DOMLoc.equals` (the reference-equality shortcut of the source is
subsumed by structural equality; comparison with `null` is dropped since
locations here are always present). -/
def DOMLoc.equals (l other : DOMLoc) : Bool :=
  l.node == other.node && l.offset == other.offset

/-- `DOMLoc.pointedNode`. -/
def DOMLoc.pointedNode (a : Arena) (l : DOMLoc) : Option Nat :=
  if a.kindOf l.node = NodeKind.text then some l.node
  else (a.childNodes l.node).get? l.offset

/-- `DOMLoc.normalizedOffset`: clamp the offset into the node's valid
range; throws on unsupported node kinds. -/
def DOMLoc.normalizedOffset (a : Arena) (l : DOMLoc) : Except DOMErr Nat :=
  match a.kindOf l.node with
  | NodeKind.document | NodeKind.documentFragment | NodeKind.element =>
    let length := (a.childNodes l.node).length
    Except.ok (if l.offset > length then length else l.offset)
  | NodeKind.text =>
    let length := a.textLength l.node
    Except.ok (if l.offset > length then length else l.offset)
  | NodeKind.other => Except.error DOMErr.unsupportedNodeType

/-- `DOMLoc.isNormalized`. -/
def DOMLoc.isNormalized (a : Arena) (l : DOMLoc) : Except DOMErr Bool :=
  match l.normalizedOffset a with
  | Except.error e => Except.error e
  | Except.ok n => Except.ok (l.offset == n)

/-- `DOMLoc.normalizeOffset`: returns `this` (the same value) when the
offset is already normalized. -/
def DOMLoc.normalizeOffset (a : Arena) (l : DOMLoc) : Except DOMErr DOMLoc :=
  match l.normalizedOffset a with
  | Except.error e => Except.error e
  | Except.ok normalized =>
    Except.ok (if normalized = l.offset then l else ⟨l.node, normalized⟩)

/-- `DOMLoc.compare`: document-order comparison of two locations. -/
def DOMLoc.compare (a : Arena) (l other : DOMLoc) : Except DOMErr Int :=
  if l.equals other then Except.ok 0
  else if l.node = other.node then
    Except.ok (if (l.offset : Int) - (other.offset : Int) < 0 then -1 else 1)
  else
    let result := a.cdp l.node other.node
    if result &&& DOCUMENT_POSITION_DISCONNECTED ≠ 0 then
      Except.error DOMErr.comparingDisconnectedNodes
    else if result &&& DOCUMENT_POSITION_FOLLOWING ≠ 0 then
      Except.ok
        (if result &&& DOCUMENT_POSITION_CONTAINED_BY ≠ 0 then
          pointedCompare a l.node l.offset other.node
        else -1)
    else if result &&& DOCUMENT_POSITION_PRECEDING = 0 then
      Except.error DOMErr.internalError
    else
      Except.ok
        (if result &&& DOCUMENT_POSITION_CONTAINS ≠ 0 ∧
            pointedCompare a other.node other.offset l.node > 0 then -1
        else 1)

/-- `DOMSpace`: a bounded region of the tree with a relevance predicate. -/
structure DOMSpace where
  min : DOMLoc
  max : DOMLoc
  relevanceTest : Nat → Bool

/-- `DOMSpace.isRelevant`: the fixed node-kind test combined with the
caller-supplied test. -/
def DOMSpace.isRelevant (s : DOMSpace) (a : Arena) (node : Nat) : Bool :=
  (a.kindOf node == NodeKind.element || a.kindOf node == NodeKind.text ||
    a.kindOf node == NodeKind.document ||
    a.kindOf node == NodeKind.documentFragment) &&
  s.relevanceTest node

/-- The `DOMSpace` constructor: fails with `CannotEscapeIrrelevantNode`
when either endpoint node is irrelevant, then with `ReversedRangeError`
when `max` compares below `min`. -/
def DOMSpace.make (a : Arena) (min max : DOMLoc) (relevanceTest : Nat → Bool) :
    Except DOMErr DOMSpace :=
  let s : DOMSpace := ⟨min, max, relevanceTest⟩
  if !(s.isRelevant a min.node && s.isRelevant a max.node) then
    Except.error DOMErr.cannotEscapeIrrelevantNode
  else
    match DOMLoc.compare a max min with
    | Except.error e => Except.error e
    | Except.ok c =>
      if c < 0 then Except.error DOMErr.reversedRangeError
      else Except.ok s

/-- `DOMSpace.makeSpanningNode`. -/
def DOMSpace.makeSpanningNode (a : Arena) (node : Nat)
    (relevanceTest : Nat → Bool) : Except DOMErr DOMSpace :=
  DOMSpace.make a ⟨node, 0⟩ ⟨node, (a.childNodes node).length⟩ relevanceTest

/-- `DOMSpace.contains`: `min.compare(loc) <= 0 && max.compare(loc) >= 0`,
converting a `ComparingDisconnectedNodes` failure into `false`.  The
source wraps both comparisons in one try/catch; catching at each
comparison is observably the same since the first failure aborts the
conjunction. -/
def DOMSpace.contains (s : DOMSpace) (a : Arena) (loc : DOMLoc) :
    Except DOMErr Bool :=
  match DOMLoc.compare a s.min loc with
  | Except.error DOMErr.comparingDisconnectedNodes => Except.ok false
  | Except.error e => Except.error e
  | Except.ok c1 =>
    if c1 ≤ 0 then
      match DOMLoc.compare a s.max loc with
      | Except.error DOMErr.comparingDisconnectedNodes => Except.ok false
      | Except.error e => Except.error e
      | Except.ok c2 => Except.ok (decide (c2 ≥ 0))
    else Except.ok false

/-- `DOMSpace.containsNode`: true iff the node has a parent and the
location pointing at it is contained. -/
def DOMSpace.containsNode (s : DOMSpace) (a : Arena) (node : Nat) :
    Except DOMErr Bool :=
  match a.parentNode node with
  | none => Except.ok false
  | some parent =>
    s.contains a ⟨parent, (a.childNodes parent).indexOf node⟩

/-- The `while (node !== null && this.containsNode(node))` loop of
`escapeIrrelevantNode`, collecting the node and its ancestors innermost
first; the fuel bounds the number of parent steps. -/
def DOMSpace.chainAux (s : DOMSpace) (a : Arena) :
    Nat → Option Nat → Except DOMErr (List Nat)
  | 0, _ => Except.ok []
  | _, none => Except.ok []
  | fuel + 1, some node =>
    match s.containsNode a node with
    | Except.error e => Except.error e
    | Except.ok false => Except.ok []
    | Except.ok true =>
      match s.chainAux a fuel (a.parentNode node) with
      | Except.error e => Except.error e
      | Except.ok rest => Except.ok (node :: rest)

/-- The scan of `escapeIrrelevantNode` over the reversed chain: the first
irrelevant candidate is escaped by pointing at it from its parent; the
source throws its internal error when that candidate is the topmost
element of the chain (and its non-null assertion on the parent is modelled
the same way). -/
def DOMSpace.escapeScan (s : DOMSpace) (a : Arena) (first : Option Nat) :
    List Nat → DOMLoc → Except DOMErr DOMLoc
  | [], normalized => Except.ok normalized
  | candidate :: rest, normalized =>
    if !(s.isRelevant a candidate) then
      if first = some candidate then Except.error DOMErr.internalError
      else
        match a.parentNode candidate with
        | none => Except.error DOMErr.internalError
        | some parentNode =>
          Except.ok ⟨parentNode, (a.childNodes parentNode).indexOf candidate⟩
    else s.escapeScan a first rest normalized

/-- `DOMSpace.escapeIrrelevantNode`. -/
def DOMSpace.escapeIrrelevantNode (s : DOMSpace) (a : Arena)
    (location : DOMLoc) : Except DOMErr DOMLoc :=
  match s.contains a location with
  | Except.error e => Except.error e
  | Except.ok false => Except.error DOMErr.domSpaceScopeError
  | Except.ok true =>
    match location.normalizeOffset a with
    | Except.error e => Except.error e
    | Except.ok normalized =>
      match s.chainAux a (normalized.node + 1) (some normalized.node) with
      | Except.error e => Except.error e
      | Except.ok ancestorsAndSelf =>
        let reversed := ancestorsAndSelf.reverse
        s.escapeScan a reversed.head? reversed normalized

/-- The final `return this.contains(loc) ? loc : null` of `next` and
`previous`. -/
def DOMSpace.clip (s : DOMSpace) (a : Arena) (loc : DOMLoc) :
    Except DOMErr (Option DOMLoc) :=
  match s.contains a loc with
  | Except.error e => Except.error e
  | Except.ok c => Except.ok (if c then some loc else none)

/-- `DOMSpace.next`: the next relevant location, or `none` at the
boundary. -/
def DOMSpace.next (s : DOMSpace) (a : Arena) (start : DOMLoc) :
    Except DOMErr (Option DOMLoc) :=
  match s.escapeIrrelevantNode a start with
  | Except.error e => Except.error e
  | Except.ok esc =>
    let node := esc.node
    let offset := esc.offset
    let loc? : Except DOMErr (Option DOMLoc) :=
      match a.kindOf node with
      | NodeKind.documentFragment | NodeKind.document | NodeKind.element =>
        Except.ok
          (match (a.childNodes node).get? offset with
          | some pointed =>
            some
              (if s.isRelevant a pointed then ⟨pointed, 0⟩
              else ⟨node, offset + 1⟩)
          | none => none)
      | NodeKind.text =>
        Except.ok
          (if offset + 1 ≤ a.textLength node then some ⟨node, offset + 1⟩
          else none)
      | NodeKind.other => Except.error DOMErr.internalError
    match loc? with
    | Except.error e => Except.error e
    | Except.ok (some loc) => s.clip a loc
    | Except.ok none =>
      match a.parentNode node with
      | none => Except.ok none
      | some parentNode =>
        s.clip a ⟨parentNode, (a.childNodes parentNode).indexOf node + 1⟩

/-- `DOMSpace.previous`: the previous relevant location, or `none` at the
boundary.  The JavaScript index `childNodes[--offset]` is undefined when
`offset` is `0`, hence the explicit zero test. -/
def DOMSpace.previous (s : DOMSpace) (a : Arena) (start : DOMLoc) :
    Except DOMErr (Option DOMLoc) :=
  match s.escapeIrrelevantNode a start with
  | Except.error e => Except.error e
  | Except.ok esc =>
    let node := esc.node
    let offset := esc.offset
    let loc? : Except DOMErr (Option DOMLoc) :=
      match a.kindOf node with
      | NodeKind.documentFragment | NodeKind.document | NodeKind.element =>
        Except.ok
          (match (if offset = 0 then none
                  else (a.childNodes node).get? (offset - 1)) with
          | some pointed =>
            some
              (if s.isRelevant a pointed then
                ⟨pointed,
                  if a.kindOf pointed = NodeKind.text then a.textLength pointed
                  else (a.childNodes pointed).length⟩
              else ⟨node, offset - 1⟩)
          | none => none)
      | NodeKind.text =>
        Except.ok (if offset ≥ 1 then some ⟨node, offset - 1⟩ else none)
      | NodeKind.other => Except.error DOMErr.internalError
    match loc? with
    | Except.error e => Except.error e
    | Except.ok (some loc) => s.clip a loc
    | Except.ok none =>
      match a.parentNode node with
      | none => Except.ok none
      | some parentNode =>
        s.clip a ⟨parentNode, (a.childNodes parentNode).indexOf node⟩

/-- Well-formedness of an arena: a parent has a strictly smaller index
than its child (so the forest is acyclic), parent and child links agree,
child lists have no duplicates, and text or unsupported nodes are
childless. -/
structure Arena.WF (a : Arena) : Prop where
  parent_lt : ∀ i p, a.parentNode i = some p → p < i
  parent_mem : ∀ i p, a.parentNode i = some p →
    p < a.nodes.length ∧ i ∈ a.childNodes p
  child_parent : ∀ p c, c ∈ a.childNodes p →
    a.parentNode c = some p ∧ c < a.nodes.length
  child_nodup : ∀ p, (a.childNodes p).Nodup
  leaf_kinds : ∀ i, a.kindOf i = NodeKind.text ∨ a.kindOf i = NodeKind.other →
    a.childNodes i = []

/-- Decidable well-formedness check, equivalent to `Arena.WF` (the
conditions on out-of-range indices hold trivially since such nodes are
childless and parentless). -/
def Arena.wfBool (a : Arena) : Bool :=
  (List.range a.nodes.length).all fun i =>
    (match a.parentNode i with
      | none => true
      | some p =>
        decide (p < i) && decide (p < a.nodes.length) &&
          decide (i ∈ a.childNodes p)) &&
    ((a.childNodes i).all fun c =>
      decide (a.parentNode c = some i) && decide (c < a.nodes.length)) &&
    decide ((a.childNodes i).Nodup) &&
    (if a.kindOf i = NodeKind.text ∨ a.kindOf i = NodeKind.other then
      decide (a.childNodes i = [])
    else true)

/-- The full ancestor chain of a node, the node itself included, ordered
innermost first; the fuel bounds the number of parent steps. -/
def Arena.ancestorChainAux (a : Arena) : Nat → Nat → List Nat
  | 0, i => [i]
  | fuel + 1, i =>
    match a.parentNode i with
    | none => [i]
    | some p => i :: a.ancestorChainAux fuel p

def Arena.ancestorChain (a : Arena) (i : Nat) : List Nat :=
  a.ancestorChainAux (i + 1) i

/-- Every ancestor of the node, the node itself included, is relevant for
the space.  This is the contextual-relevance condition of the spec,
extended to the whole parent chain. -/
def DOMSpace.chainRelevant (s : DOMSpace) (a : Arena) (i : Nat) : Bool :=
  (a.ancestorChain i).all (s.isRelevant a)

instance : DecidableEq (Except DOMErr DOMLoc) := fun x y =>
  match x, y with
  | Except.ok u, Except.ok v =>
    if h : u = v then isTrue (by rw [h]) else isFalse (by simp [h])
  | Except.error u, Except.error v =>
    if h : u = v then isTrue (by rw [h]) else isFalse (by simp [h])
  | Except.ok _, Except.error _ => isFalse (by simp)
  | Except.error _, Except.ok _ => isFalse (by simp)

instance : DecidableEq (Except DOMErr (Option DOMLoc)) := fun x y =>
  match x, y with
  | Except.ok u, Except.ok v =>
    if h : u = v then isTrue (by rw [h]) else isFalse (by simp [h])
  | Except.error u, Except.error v =>
    if h : u = v then isTrue (by rw [h]) else isFalse (by simp [h])
  | Except.ok _, Except.error _ => isFalse (by simp)
  | Except.error _, Except.ok _ => isFalse (by simp)

instance : DecidableEq (Except DOMErr Int) := fun x y =>
  match x, y with
  | Except.ok u, Except.ok v =>
    if h : u = v then isTrue (by rw [h]) else isFalse (by simp [h])
  | Except.error u, Except.error v =>
    if h : u = v then isTrue (by rw [h]) else isFalse (by simp [h])
  | Except.ok _, Except.error _ => isFalse (by simp)
  | Except.error _, Except.ok _ => isFalse (by simp)

instance : DecidableEq (Except DOMErr Nat) := fun x y =>
  match x, y with
  | Except.ok u, Except.ok v =>
    if h : u = v then isTrue (by rw [h]) else isFalse (by simp [h])
  | Except.error u, Except.error v =>
    if h : u = v then isTrue (by rw [h]) else isFalse (by simp [h])
  | Except.ok _, Except.error _ => isFalse (by simp)
  | Except.error _, Except.ok _ => isFalse (by simp)

instance : DecidableEq (Except DOMErr Bool) := fun x y =>
  match x, y with
  | Except.ok u, Except.ok v =>
    if h : u = v then isTrue (by rw [h]) else isFalse (by simp [h])
  | Except.error u, Except.error v =>
    if h : u = v then isTrue (by rw [h]) else isFalse (by simp [h])
  | Except.ok _, Except.error _ => isFalse (by simp)
  | Except.error _, Except.ok _ => isFalse (by simp)

/-! Concrete arenas used by witnesses and counterexamples. -/

/-- A tree with an element root (node 0) and two text children of length
one (nodes 1 and 2). -/
def exTree : Arena :=
  ⟨[⟨NodeKind.element, [1, 2], none, 0⟩,
    ⟨NodeKind.text, [], some 0, 1⟩,
    ⟨NodeKind.text, [], some 0, 1⟩]⟩

/-- The space spanning `exTree`'s root with the always-true relevance
test. -/
def exTreeSpace : DOMSpace := ⟨⟨0, 0⟩, ⟨0, 2⟩, fun _ => true⟩

/-- A single childless, parentless element node. -/
def exSolo : Arena := ⟨[⟨NodeKind.element, [], none, 0⟩]⟩

/-- A space over `exSolo` whose endpoints have out-of-range offsets. -/
def exSoloSpace : DOMSpace := ⟨⟨0, 5⟩, ⟨0, 7⟩, fun _ => true⟩

/-- Two disjoint single-node trees: nodes 0 and 1 are both parentless
elements. -/
def exForest : Arena :=
  ⟨[⟨NodeKind.element, [], none, 0⟩, ⟨NodeKind.element, [], none, 0⟩]⟩

/-- A tree `P[ M, A[ T ] ]`: node 0 is the element root, node 1 a text
child of length one, node 2 an element child, node 3 a text grandchild of
length one inside node 2. -/
def exDeep : Arena :=
  ⟨[⟨NodeKind.element, [1, 2], none, 0⟩,
    ⟨NodeKind.text, [], some 0, 1⟩,
    ⟨NodeKind.element, [3], some 0, 0⟩,
    ⟨NodeKind.text, [], some 2, 1⟩]⟩

/-- A space over `exDeep` from `(1, 0)` to `(3, 1)` whose relevance test
excludes node 2, the ancestor of the `max` endpoint. -/
def exDeepSpace : DOMSpace := ⟨⟨1, 0⟩, ⟨3, 1⟩, fun n => n ≠ 2⟩

/-- A space over `exTree` whose `min` endpoint node (node 1) is irrelevant
under the test, and whose `max` precedes its `min` in document order. -/
def exIrrelevantReversed : DOMSpace := ⟨⟨1, 0⟩, ⟨0, 0⟩, fun n => n ≠ 1⟩

/-- `x` is a strict ancestor of `y` (equivalently, the node `x` contains
the node `y`): same tree, distinct nodes, and the root path of `x` is a
prefix of the root path of `y`. -/
def Arena.strictAncestor (a : Arena) (x y : Nat) : Bool :=
  (a.rootOf x == a.rootOf y) && (x != y) && (a.path x).isPrefixOf (a.path y)

/-! ### Basic arena lemmas -/

theorem Arena.data_oob (a : Arena) (i : Nat) (h : a.nodes.length ≤ i) :
    a.data i = defaultNodeData := by
  rw [Arena.data, List.getD_eq_default _ _ h]

theorem Arena.parentNode_lt_length (a : Arena) {i p : Nat}
    (h : a.parentNode i = some p) : i < a.nodes.length := by
  by_contra hn
  rw [Arena.parentNode, a.data_oob i (by omega)] at h
  simp [defaultNodeData] at h

theorem Arena.childNodes_oob (a : Arena) (i : Nat) (h : a.nodes.length ≤ i) :
    a.childNodes i = [] := by
  rw [Arena.childNodes, a.data_oob i h]
  rfl

theorem Arena.wf_of_wfBool (a : Arena) (h : a.wfBool = true) : a.WF := by
  rw [Arena.wfBool, List.all_eq_true] at h
  have key : ∀ i, i < a.nodes.length →
      (match a.parentNode i with
        | none => true
        | some p =>
          decide (p < i) && decide (p < a.nodes.length) &&
            decide (i ∈ a.childNodes p)) = true ∧
      ((a.childNodes i).all fun c =>
        decide (a.parentNode c = some i) && decide (c < a.nodes.length)) = true ∧
      decide ((a.childNodes i).Nodup) = true ∧
      (if a.kindOf i = NodeKind.text ∨ a.kindOf i = NodeKind.other then
        decide (a.childNodes i = [])
      else true) = true := by
    intro i hi
    have := h i (List.mem_range.mpr hi)
    simp only [Bool.and_eq_true] at this
    exact ⟨this.1.1.1, this.1.1.2, this.1.2, this.2⟩
  constructor
  · intro i p hp
    have hi := a.parentNode_lt_length hp
    have := (key i hi).1
    rw [hp] at this
    simp only [Bool.and_eq_true, decide_eq_true_eq] at this
    exact this.1.1
  · intro i p hp
    have hi := a.parentNode_lt_length hp
    have := (key i hi).1
    rw [hp] at this
    simp only [Bool.and_eq_true, decide_eq_true_eq] at this
    exact ⟨this.1.2, this.2⟩
  · intro p c hc
    by_cases hp : p < a.nodes.length
    · have := (key p hp).2.1
      rw [List.all_eq_true] at this
      have := this c hc
      simp only [Bool.and_eq_true, decide_eq_true_eq] at this
      exact this
    · rw [a.childNodes_oob p (by omega)] at hc
      simp at hc
  · intro p
    by_cases hp : p < a.nodes.length
    · have := (key p hp).2.2.1
      simpa using this
    · rw [a.childNodes_oob p (by omega)]
      exact List.nodup_nil
  · intro i hk
    by_cases hp : i < a.nodes.length
    · have := (key i hp).2.2.2
      rw [if_pos hk] at this
      simpa using this
    · exact a.childNodes_oob i (by omega)

/-! ### Fuel-independence and unfolding lemmas for paths, roots and
ancestor chains -/

theorem Arena.pathAux_fuel (a : Arena) (wf : a.WF) :
    ∀ i f g : Nat, i < f → i < g → a.pathAux f i = a.pathAux g i := by
  intro i
  induction i using Nat.strong_induction_on with
  | _ i ih =>
    intro f g hf hg
    obtain ⟨f, rfl⟩ : ∃ f', f = f' + 1 := ⟨f - 1, by omega⟩
    obtain ⟨g, rfl⟩ : ∃ g', g = g' + 1 := ⟨g - 1, by omega⟩
    cases hp : a.parentNode i with
    | none => simp only [Arena.pathAux, hp]
    | some p =>
      have hpi := wf.parent_lt i p hp
      simp only [Arena.pathAux, hp]
      rw [ih p hpi f g (by omega) (by omega)]

theorem Arena.path_parent (a : Arena) (wf : a.WF) {i p : Nat}
    (h : a.parentNode i = some p) :
    a.path i = a.path p ++ [(a.childNodes p).indexOf i] := by
  have hpi := wf.parent_lt i p h
  rw [Arena.path, Arena.path]
  simp only [Arena.pathAux, h]
  rw [a.pathAux_fuel wf p i (p + 1) (by omega) (by omega)]
  rfl

theorem Arena.path_of_parent_none (a : Arena) {i : Nat}
    (h : a.parentNode i = none) : a.path i = [] := by
  rw [Arena.path]
  simp only [Arena.pathAux, h]

theorem Arena.rootAux_fuel (a : Arena) (wf : a.WF) :
    ∀ i f g : Nat, i < f → i < g → a.rootAux f i = a.rootAux g i := by
  intro i
  induction i using Nat.strong_induction_on with
  | _ i ih =>
    intro f g hf hg
    obtain ⟨f, rfl⟩ : ∃ f', f = f' + 1 := ⟨f - 1, by omega⟩
    obtain ⟨g, rfl⟩ : ∃ g', g = g' + 1 := ⟨g - 1, by omega⟩
    cases hp : a.parentNode i with
    | none => simp only [Arena.rootAux, hp]
    | some p =>
      have hpi := wf.parent_lt i p hp
      simp only [Arena.rootAux, hp]
      rw [ih p hpi f g (by omega) (by omega)]

theorem Arena.rootOf_parent (a : Arena) (wf : a.WF) {i p : Nat}
    (h : a.parentNode i = some p) : a.rootOf i = a.rootOf p := by
  have hpi := wf.parent_lt i p h
  rw [Arena.rootOf, Arena.rootOf]
  simp only [Arena.rootAux, h]
  rw [a.rootAux_fuel wf p i (p + 1) (by omega) (by omega)]
  rfl

theorem Arena.rootOf_of_parent_none (a : Arena) {i : Nat}
    (h : a.parentNode i = none) : a.rootOf i = i := by
  rw [Arena.rootOf]
  simp only [Arena.rootAux, h]

theorem Arena.ancestorChainAux_fuel (a : Arena) (wf : a.WF) :
    ∀ i f g : Nat, i < f → i < g →
      a.ancestorChainAux f i = a.ancestorChainAux g i := by
  intro i
  induction i using Nat.strong_induction_on with
  | _ i ih =>
    intro f g hf hg
    obtain ⟨f, rfl⟩ : ∃ f', f = f' + 1 := ⟨f - 1, by omega⟩
    obtain ⟨g, rfl⟩ : ∃ g', g = g' + 1 := ⟨g - 1, by omega⟩
    cases hp : a.parentNode i with
    | none => simp only [Arena.ancestorChainAux, hp]
    | some p =>
      have hpi := wf.parent_lt i p hp
      simp only [Arena.ancestorChainAux, hp]
      rw [ih p hpi f g (by omega) (by omega)]

theorem Arena.ancestorChain_parent (a : Arena) (wf : a.WF) {i p : Nat}
    (h : a.parentNode i = some p) :
    a.ancestorChain i = i :: a.ancestorChain p := by
  have hpi := wf.parent_lt i p h
  rw [Arena.ancestorChain, Arena.ancestorChain]
  simp only [Arena.ancestorChainAux, h]
  rw [a.ancestorChainAux_fuel wf p i (p + 1) (by omega) (by omega)]
  rfl

theorem Arena.ancestorChain_of_parent_none (a : Arena) {i : Nat}
    (h : a.parentNode i = none) : a.ancestorChain i = [i] := by
  rw [Arena.ancestorChain]
  simp only [Arena.ancestorChainAux, h]

theorem Arena.self_mem_ancestorChain (a : Arena) (wf : a.WF) (i : Nat) :
    i ∈ a.ancestorChain i := by
  cases hp : a.parentNode i with
  | none => rw [a.ancestorChain_of_parent_none hp]; exact List.mem_singleton.mpr rfl
  | some p => rw [a.ancestorChain_parent wf hp]; exact List.mem_cons_self i _

/-! ### `indexOf` helpers -/

theorem indexOf_eq_of_get?_nodup {l : List Nat} (nd : l.Nodup) {k c : Nat}
    (h : l.get? k = some c) : l.indexOf c = k := by
  have hk : k < l.length := by
    by_contra hn
    rw [List.get?_eq_getElem?, List.getElem?_eq_none (by omega)] at h
    exact Option.noConfusion h
  rw [List.get?_eq_get hk] at h
  have hc : l.get ⟨k, hk⟩ = c := Option.some.inj h
  have h2 := List.get_indexOf nd ⟨k, hk⟩
  rw [hc] at h2
  exact h2

theorem get?_indexOf_of_mem {l : List Nat} {c : Nat} (h : c ∈ l) :
    l.get? (l.indexOf c) = some c := List.indexOf_get? h

/-! ### Lexicographic order lemmas -/

theorem lexOrd_eq_iff : ∀ xs ys : List Nat, lexOrd xs ys = Ordering.eq ↔ xs = ys
  | [], [] => by simp [lexOrd]
  | [], _ :: _ => by simp [lexOrd]
  | _ :: _, [] => by simp [lexOrd]
  | x :: xs, y :: ys => by
    simp only [lexOrd]
    split_ifs with h1 h2
    · constructor
      · intro h; exact absurd h (by simp)
      · intro h
        injection h with hx _
        omega
    · constructor
      · intro h; exact absurd h (by simp)
      · intro h
        injection h with hx _
        omega
    · have hxy : x = y := by omega
      subst hxy
      rw [lexOrd_eq_iff xs ys]
      constructor
      · intro h; rw [h]
      · intro h; injection h

theorem lexOrd_swap : ∀ xs ys : List Nat, lexOrd ys xs = (lexOrd xs ys).swap
  | [], [] => by simp [lexOrd, Ordering.swap]
  | [], _ :: _ => by simp [lexOrd, Ordering.swap]
  | _ :: _, [] => by simp [lexOrd, Ordering.swap]
  | x :: xs, y :: ys => by
    simp only [lexOrd]
    split_ifs with h1 h2 h3 _h4 <;> try omega
    · simp [Ordering.swap]
    · simp [Ordering.swap]
    · exact lexOrd_swap xs ys

theorem lexOrd_append_left : ∀ p xs ys : List Nat,
    lexOrd (p ++ xs) (p ++ ys) = lexOrd xs ys
  | [], _, _ => rfl
  | a :: p, xs, ys => by
    simp only [List.cons_append, lexOrd]
    rw [if_neg (by omega), if_neg (by omega)]
    exact lexOrd_append_left p xs ys

theorem lexOrd_of_proper_isPrefixOf {xs ys : List Nat}
    (h : xs.isPrefixOf ys = true) (hne : xs ≠ ys) :
    lexOrd xs ys = Ordering.lt := by
  obtain ⟨t, rfl⟩ := List.isPrefixOf_iff_prefix.mp h
  have ht : t ≠ [] := by
    intro h0
    rw [h0, List.append_nil] at hne
    exact hne rfl
  calc lexOrd xs (xs ++ t) = lexOrd (xs ++ []) (xs ++ t) := by rw [List.append_nil]
    _ = lexOrd [] t := lexOrd_append_left xs [] t
    _ = Ordering.lt := by
        cases t with
        | nil => exact absurd rfl ht
        | cons a t => rfl

theorem isPrefixOf_antisymm {xs ys : List Nat}
    (h1 : xs.isPrefixOf ys = true) (h2 : ys.isPrefixOf xs = true) : xs = ys := by
  have p1 := List.isPrefixOf_iff_prefix.mp h1
  have p2 := List.isPrefixOf_iff_prefix.mp h2
  exact p1.eq_of_length (Nat.le_antisymm p1.length_le p2.length_le)

/-! ### Path injectivity -/

theorem Arena.path_inj_aux (a : Arena) (wf : a.WF) :
    ∀ n i j : Nat, i + j ≤ n → a.rootOf i = a.rootOf j →
      a.path i = a.path j → i = j := by
  intro n
  induction n with
  | zero =>
    intro i j hn _ _
    omega
  | succ n ih =>
    intro i j hn hr hp
    cases hpi : a.parentNode i with
    | none =>
      cases hpj : a.parentNode j with
      | none =>
        rw [a.rootOf_of_parent_none hpi, a.rootOf_of_parent_none hpj] at hr
        exact hr
      | some q =>
        rw [a.path_of_parent_none hpi, a.path_parent wf hpj] at hp
        exact absurd hp.symm (by simp)
    | some p =>
      cases hpj : a.parentNode j with
      | none =>
        rw [a.path_parent wf hpi, a.path_of_parent_none hpj] at hp
        exact absurd hp (by simp)
      | some q =>
        rw [a.path_parent wf hpi, a.path_parent wf hpj,
          ← List.concat_eq_append, ← List.concat_eq_append] at hp
        obtain ⟨hp1, hp2⟩ := List.concat_inj.mp hp
        have hplt := wf.parent_lt i p hpi
        have hqlt := wf.parent_lt j q hpj
        have hr' : a.rootOf p = a.rootOf q := by
          rw [← a.rootOf_parent wf hpi, ← a.rootOf_parent wf hpj]
          exact hr
        obtain rfl : p = q := ih p q (by omega) hr' hp1
        have hi := (wf.parent_mem i p hpi).2
        have hj := (wf.parent_mem j p hpj).2
        have h1 := get?_indexOf_of_mem hi
        have h2 := get?_indexOf_of_mem hj
        rw [hp2] at h1
        rw [h1] at h2
        exact Option.some.inj h2

theorem Arena.path_inj (a : Arena) (wf : a.WF) {i j : Nat}
    (hr : a.rootOf i = a.rootOf j) (hp : a.path i = a.path j) : i = j :=
  a.path_inj_aux wf (i + j) i j le_rfl hr hp

/-! ### Ancestor relation lemmas -/

theorem Arena.strictAncestor_iff (a : Arena) {x y : Nat} :
    a.strictAncestor x y = true ↔
      a.rootOf x = a.rootOf y ∧ x ≠ y ∧
        (a.path x).isPrefixOf (a.path y) = true := by
  simp [Arena.strictAncestor, and_assoc]

theorem Arena.strictAncestor_of_child (a : Arena) (wf : a.WF) {p c : Nat}
    (h : c ∈ a.childNodes p) : a.strictAncestor p c = true := by
  have hp := (wf.child_parent p c h).1
  rw [Arena.strictAncestor_iff]
  refine ⟨(a.rootOf_parent wf hp).symm, ?_, ?_⟩
  · intro hcp
    subst hcp
    exact absurd (wf.parent_lt p p hp) (by omega)
  · rw [a.path_parent wf hp, List.isPrefixOf_iff_prefix]
    exact ⟨[(a.childNodes p).indexOf c], rfl⟩

theorem Arena.strictAncestor_trans (a : Arena) (wf : a.WF) {x y z : Nat}
    (h1 : a.strictAncestor x y = true) (h2 : a.strictAncestor y z = true) :
    a.strictAncestor x z = true := by
  rw [Arena.strictAncestor_iff] at h1 h2 ⊢
  obtain ⟨hr1, hne1, hp1⟩ := h1
  obtain ⟨hr2, hne2, hp2⟩ := h2
  refine ⟨hr1.trans hr2, ?_, ?_⟩
  · intro hxz
    subst hxz
    exact hne1 (a.path_inj wf hr1 (isPrefixOf_antisymm hp1 hp2))
  · rw [List.isPrefixOf_iff_prefix] at hp1 hp2 ⊢
    exact hp1.trans hp2

/-! ### `cdp` evaluation lemmas -/

theorem Arena.cdp_strictAncestor (a : Arena) {x y : Nat}
    (h : a.strictAncestor x y = true) : a.cdp x y = 20 := by
  rw [Arena.strictAncestor_iff] at h
  obtain ⟨hr, hne, hpre⟩ := h
  rw [Arena.cdp, if_neg hne, if_neg (by simp [hr])]
  simp only [hpre, if_true]
  rfl

theorem Arena.cdp_strictDesc (a : Arena) (wf : a.WF) {x y : Nat}
    (h : a.strictAncestor y x = true) : a.cdp x y = 10 := by
  rw [Arena.strictAncestor_iff] at h
  obtain ⟨hr, hne, hpre⟩ := h
  have hnp : (a.path x).isPrefixOf (a.path y) = false := by
    by_contra hc
    rw [Bool.not_eq_false] at hc
    exact hne (a.path_inj wf hr (isPrefixOf_antisymm hpre hc))
  rw [Arena.cdp, if_neg (Ne.symm hne), if_neg (by simp [hr])]
  simp only [hnp, Bool.false_eq_true, if_false, hpre, if_true]
  rfl

theorem Arena.cdp_disconnected (a : Arena) {x y : Nat}
    (h : a.rootOf x ≠ a.rootOf y) : a.cdp x y = 35 := by
  have hne : x ≠ y := by
    intro hxy
    exact h (by rw [hxy])
  rw [Arena.cdp, if_neg hne, if_pos h]
  rfl

theorem Arena.cdp_disjoint_lt (a : Arena) {x y : Nat}
    (hr : a.rootOf x = a.rootOf y)
    (h1 : (a.path x).isPrefixOf (a.path y) = false)
    (h2 : (a.path y).isPrefixOf (a.path x) = false)
    (hlex : lexOrd (a.path x) (a.path y) = Ordering.lt) : a.cdp x y = 4 := by
  have hne : x ≠ y := by
    intro hxy
    subst hxy
    rw [(lexOrd_eq_iff (a.path x) (a.path x)).mpr rfl] at hlex
    exact Ordering.noConfusion hlex
  rw [Arena.cdp, if_neg hne, if_neg (by simp [hr])]
  simp only [h1, h2, Bool.false_eq_true, if_false, hlex]
  rfl

theorem Arena.cdp_disjoint_gt (a : Arena) {x y : Nat}
    (hr : a.rootOf x = a.rootOf y)
    (h1 : (a.path x).isPrefixOf (a.path y) = false)
    (h2 : (a.path y).isPrefixOf (a.path x) = false)
    (hlex : lexOrd (a.path x) (a.path y) = Ordering.gt) : a.cdp x y = 2 := by
  have hne : x ≠ y := by
    intro hxy
    subst hxy
    rw [(lexOrd_eq_iff (a.path x) (a.path x)).mpr rfl] at hlex
    exact Ordering.noConfusion hlex
  rw [Arena.cdp, if_neg hne, if_neg (by simp [hr])]
  simp only [h1, h2, Bool.false_eq_true, if_false, hlex]
  rfl

theorem Arena.cdp_cases (a : Arena) {x y : Nat} (hne : x ≠ y) :
    a.cdp x y = 35 ∨ a.cdp x y = 20 ∨ a.cdp x y = 10 ∨
      a.cdp x y = 4 ∨ a.cdp x y = 2 := by
  rw [Arena.cdp, if_neg hne]
  by_cases h1 : a.rootOf x ≠ a.rootOf y
  · rw [if_pos h1]
    left
    rfl
  · rw [if_neg h1]
    cases hp1 : (a.path x).isPrefixOf (a.path y) with
    | true =>
      simp only [hp1, if_true]
      right; left; rfl
    | false =>
      simp only [hp1, Bool.false_eq_true, if_false]
      cases hp2 : (a.path y).isPrefixOf (a.path x) with
      | true =>
        simp only [hp2, if_true]
        right; right; left; rfl
      | false =>
        simp only [hp2, Bool.false_eq_true, if_false]
        cases hl : lexOrd (a.path x) (a.path y) with
        | lt =>
          simp only [hl]
          right; right; right; left; rfl
        | eq =>
          simp only [hl]
          right; right; right; right; rfl
        | gt =>
          simp only [hl]
          right; right; right; right; rfl

/-! ### `pointedCompare` lemmas -/

theorem pointedCompare_of_none (a : Arena) {node offset : Nat} (child : Nat)
    (h : (a.childNodes node).get? offset = none) :
    pointedCompare a node offset child = 1 := by
  simp only [pointedCompare, h]

theorem pointedCompare_of_hit (a : Arena) {node offset child pointed : Nat}
    (h : (a.childNodes node).get? offset = some pointed)
    (hc : pointed = child ∨
      a.cdp pointed child &&& DOCUMENT_POSITION_FOLLOWING ≠ 0) :
    pointedCompare a node offset child = -1 := by
  simp only [pointedCompare, h]
  rw [if_pos hc]

theorem pointedCompare_of_miss (a : Arena) {node offset child pointed : Nat}
    (h : (a.childNodes node).get? offset = some pointed)
    (hc : ¬(pointed = child ∨
      a.cdp pointed child &&& DOCUMENT_POSITION_FOLLOWING ≠ 0)) :
    pointedCompare a node offset child = 1 := by
  simp only [pointedCompare, h]
  rw [if_neg hc]

theorem pointedCompare_cases (a : Arena) (node offset child : Nat) :
    pointedCompare a node offset child = -1 ∨
      pointedCompare a node offset child = 1 := by
  cases h : (a.childNodes node).get? offset with
  | none => right; exact pointedCompare_of_none a child h
  | some pointed =>
    by_cases hc : pointed = child ∨
        a.cdp pointed child &&& DOCUMENT_POSITION_FOLLOWING ≠ 0
    · left; exact pointedCompare_of_hit a h hc
    · right; exact pointedCompare_of_miss a h hc

/-! ### `equals` lemmas -/

theorem DOMLoc.equals_iff {l o : DOMLoc} : l.equals o = true ↔ l = o := by
  cases l with
  | mk n1 o1 =>
    cases o with
    | mk n2 o2 => simp [DOMLoc.equals, DOMLoc.mk.injEq]

theorem DOMLoc.equals_refl (l : DOMLoc) : l.equals l = true :=
  DOMLoc.equals_iff.mpr rfl

theorem DOMLoc.equals_eq_false_of_ne {l o : DOMLoc} (h : l ≠ o) :
    l.equals o = false := by
  rw [Bool.eq_false_iff]
  intro hc
  exact h (DOMLoc.equals_iff.mp hc)

theorem DOMLoc.ne_of_node_ne {l o : DOMLoc} (h : l.node ≠ o.node) : l ≠ o :=
  fun hlo => h (by rw [hlo])

/-! ### `compare` evaluation lemmas -/

theorem DOMLoc.compare_refl (a : Arena) (l : DOMLoc) :
    DOMLoc.compare a l l = Except.ok 0 := by
  rw [DOMLoc.compare, if_pos (DOMLoc.equals_refl l)]

theorem DOMLoc.compare_same_node (a : Arena) {l o : DOMLoc}
    (hn : l.node = o.node) (ho : l.offset ≠ o.offset) :
    DOMLoc.compare a l o =
      Except.ok (if (l.offset : Int) - (o.offset : Int) < 0 then -1 else 1) := by
  have hne : l ≠ o := fun h => ho (by rw [h])
  rw [DOMLoc.compare, if_neg (by simp [DOMLoc.equals_eq_false_of_ne hne]),
    if_pos hn]

theorem DOMLoc.compare_contains (a : Arena) {l o : DOMLoc}
    (h : a.strictAncestor l.node o.node = true) :
    DOMLoc.compare a l o =
      Except.ok (pointedCompare a l.node l.offset o.node) := by
  have hne : l.node ≠ o.node := ((a.strictAncestor_iff).mp h).2.1
  have heq := DOMLoc.equals_eq_false_of_ne (DOMLoc.ne_of_node_ne hne)
  rw [DOMLoc.compare, if_neg (by simp [heq]), if_neg hne]
  have hc := a.cdp_strictAncestor h
  have m1 := eq_false
    (by decide : ¬((20 : Nat) &&& DOCUMENT_POSITION_DISCONNECTED ≠ 0))
  have m2 := eq_true
    (by decide : (20 : Nat) &&& DOCUMENT_POSITION_FOLLOWING ≠ 0)
  have m3 := eq_true
    (by decide : (20 : Nat) &&& DOCUMENT_POSITION_CONTAINED_BY ≠ 0)
  simp only [hc, m1, m2, m3, if_false, if_true]

theorem DOMLoc.compare_contained (a : Arena) (wf : a.WF) {l o : DOMLoc}
    (h : a.strictAncestor o.node l.node = true) :
    DOMLoc.compare a l o =
      Except.ok
        (if pointedCompare a o.node o.offset l.node > 0 then -1 else 1) := by
  have hne : o.node ≠ l.node := ((a.strictAncestor_iff).mp h).2.1
  have heq := DOMLoc.equals_eq_false_of_ne (DOMLoc.ne_of_node_ne (Ne.symm hne))
  rw [DOMLoc.compare, if_neg (by simp [heq]), if_neg (Ne.symm hne)]
  have hc := a.cdp_strictDesc wf h
  have m1 := eq_false
    (by decide : ¬((10 : Nat) &&& DOCUMENT_POSITION_DISCONNECTED ≠ 0))
  have m2 := eq_false
    (by decide : ¬((10 : Nat) &&& DOCUMENT_POSITION_FOLLOWING ≠ 0))
  have m3 := eq_false
    (by decide : ¬((10 : Nat) &&& DOCUMENT_POSITION_PRECEDING = 0))
  have m4 := eq_true
    (by decide : (10 : Nat) &&& DOCUMENT_POSITION_CONTAINS ≠ 0)
  simp only [hc, m1, m2, m3, m4, if_false, true_and]

theorem DOMLoc.compare_disjoint_lt (a : Arena) {l o : DOMLoc}
    (hr : a.rootOf l.node = a.rootOf o.node) (hne : l.node ≠ o.node)
    (h1 : (a.path l.node).isPrefixOf (a.path o.node) = false)
    (h2 : (a.path o.node).isPrefixOf (a.path l.node) = false)
    (hlex : lexOrd (a.path l.node) (a.path o.node) = Ordering.lt) :
    DOMLoc.compare a l o = Except.ok (-1) := by
  have heq := DOMLoc.equals_eq_false_of_ne (DOMLoc.ne_of_node_ne hne)
  rw [DOMLoc.compare, if_neg (by simp [heq]), if_neg hne]
  have hc := a.cdp_disjoint_lt hr h1 h2 hlex
  have m1 := eq_false
    (by decide : ¬((4 : Nat) &&& DOCUMENT_POSITION_DISCONNECTED ≠ 0))
  have m2 := eq_true
    (by decide : (4 : Nat) &&& DOCUMENT_POSITION_FOLLOWING ≠ 0)
  have m3 := eq_false
    (by decide : ¬((4 : Nat) &&& DOCUMENT_POSITION_CONTAINED_BY ≠ 0))
  simp only [hc, m1, m2, m3, if_false, if_true]

theorem DOMLoc.compare_disjoint_gt (a : Arena) {l o : DOMLoc}
    (hr : a.rootOf l.node = a.rootOf o.node) (hne : l.node ≠ o.node)
    (h1 : (a.path l.node).isPrefixOf (a.path o.node) = false)
    (h2 : (a.path o.node).isPrefixOf (a.path l.node) = false)
    (hlex : lexOrd (a.path l.node) (a.path o.node) = Ordering.gt) :
    DOMLoc.compare a l o = Except.ok 1 := by
  have heq := DOMLoc.equals_eq_false_of_ne (DOMLoc.ne_of_node_ne hne)
  rw [DOMLoc.compare, if_neg (by simp [heq]), if_neg hne]
  have hc := a.cdp_disjoint_gt hr h1 h2 hlex
  have m1 := eq_false
    (by decide : ¬((2 : Nat) &&& DOCUMENT_POSITION_DISCONNECTED ≠ 0))
  have m2 := eq_false
    (by decide : ¬((2 : Nat) &&& DOCUMENT_POSITION_FOLLOWING ≠ 0))
  have m3 := eq_false
    (by decide : ¬((2 : Nat) &&& DOCUMENT_POSITION_PRECEDING = 0))
  have m4 := eq_false
    (by decide : ¬((2 : Nat) &&& DOCUMENT_POSITION_CONTAINS ≠ 0))
  simp only [hc, m1, m2, m3, m4, if_false, false_and]

theorem DOMLoc.compare_disconnected (a : Arena) {l o : DOMLoc}
    (hr : a.rootOf l.node ≠ a.rootOf o.node) :
    DOMLoc.compare a l o = Except.error DOMErr.comparingDisconnectedNodes := by
  have hne : l.node ≠ o.node := by
    intro h
    exact hr (by rw [h])
  have heq := DOMLoc.equals_eq_false_of_ne (DOMLoc.ne_of_node_ne hne)
  rw [DOMLoc.compare, if_neg (by simp [heq]), if_neg hne]
  have hc := a.cdp_disconnected hr
  have m1 := eq_true
    (by decide : (35 : Nat) &&& DOCUMENT_POSITION_DISCONNECTED ≠ 0)
  simp only [hc, m1, if_true]

/-! ### Totality, error characterization and antisymmetry of `compare` -/

theorem Arena.node_trichotomy (a : Arena) (wf : a.WF) {x y : Nat}
    (hr : a.rootOf x = a.rootOf y) (hne : x ≠ y) :
    a.strictAncestor x y = true ∨ a.strictAncestor y x = true ∨
      ((a.path x).isPrefixOf (a.path y) = false ∧
        (a.path y).isPrefixOf (a.path x) = false ∧
        (lexOrd (a.path x) (a.path y) = Ordering.lt ∨
          lexOrd (a.path x) (a.path y) = Ordering.gt)) := by
  by_cases h1 : (a.path x).isPrefixOf (a.path y) = true
  · left
    exact (a.strictAncestor_iff).mpr ⟨hr, hne, h1⟩
  · by_cases h2 : (a.path y).isPrefixOf (a.path x) = true
    · right; left
      exact (a.strictAncestor_iff).mpr ⟨hr.symm, Ne.symm hne, h2⟩
    · right; right
      have hpne : a.path x ≠ a.path y := fun hp => hne (a.path_inj wf hr hp)
      refine ⟨Bool.eq_false_iff.mpr h1, Bool.eq_false_iff.mpr h2, ?_⟩
      cases hl : lexOrd (a.path x) (a.path y) with
      | lt => left; rfl
      | gt => right; rfl
      | eq => exact absurd ((lexOrd_eq_iff _ _).mp hl) hpne

theorem DOMLoc.compare_total (a : Arena) (wf : a.WF) {l o : DOMLoc}
    (hr : a.rootOf l.node = a.rootOf o.node) :
    ∃ r : Int, DOMLoc.compare a l o = Except.ok r ∧
      (r = -1 ∨ r = 0 ∨ r = 1) := by
  by_cases he : l = o
  · subst he
    exact ⟨0, DOMLoc.compare_refl a l, Or.inr (Or.inl rfl)⟩
  · by_cases hn : l.node = o.node
    · have ho : l.offset ≠ o.offset := by
        intro hoff
        cases l; cases o
        simp_all
      refine ⟨_, DOMLoc.compare_same_node a hn ho, ?_⟩
      split_ifs <;> simp
    · rcases a.node_trichotomy wf hr hn with h | h | ⟨h1, h2, hl⟩
      · refine ⟨_, DOMLoc.compare_contains a h, ?_⟩
        rcases pointedCompare_cases a l.node l.offset o.node with hp | hp <;>
          rw [hp] <;> simp
      · refine ⟨_, DOMLoc.compare_contained a wf h, ?_⟩
        split_ifs <;> simp
      · rcases hl with hl | hl
        · exact ⟨-1, DOMLoc.compare_disjoint_lt a hr hn h1 h2 hl, Or.inl rfl⟩
        · exact ⟨1, DOMLoc.compare_disjoint_gt a hr hn h1 h2 hl,
            Or.inr (Or.inr rfl)⟩

theorem DOMLoc.compare_error_disconnected (a : Arena) (wf : a.WF)
    {l o : DOMLoc} {e : DOMErr}
    (h : DOMLoc.compare a l o = Except.error e) :
    e = DOMErr.comparingDisconnectedNodes ∧
      a.rootOf l.node ≠ a.rootOf o.node := by
  by_cases hr : a.rootOf l.node = a.rootOf o.node
  · obtain ⟨r, hok, _⟩ := DOMLoc.compare_total a wf hr
    rw [hok] at h
    exact absurd h (by simp)
  · rw [DOMLoc.compare_disconnected a hr] at h
    injection h with h2
    exact ⟨h2.symm, hr⟩

theorem DOMLoc.compare_ok_root (a : Arena) {l o : DOMLoc} {r : Int}
    (h : DOMLoc.compare a l o = Except.ok r) :
    a.rootOf l.node = a.rootOf o.node := by
  by_contra hr
  rw [DOMLoc.compare_disconnected a hr] at h
  exact Except.noConfusion h

theorem DOMLoc.compare_antisymm (a : Arena) (wf : a.WF) {l o : DOMLoc}
    {r : Int} (h : DOMLoc.compare a l o = Except.ok r) :
    DOMLoc.compare a o l = Except.ok (-r) := by
  have hr := DOMLoc.compare_ok_root a h
  by_cases he : l = o
  · subst he
    rw [DOMLoc.compare_refl] at h
    injection h with h
    subst h
    rw [DOMLoc.compare_refl]
    norm_num
  · by_cases hn : l.node = o.node
    · have ho : l.offset ≠ o.offset := by
        intro hoff
        cases l; cases o
        simp_all
      rw [DOMLoc.compare_same_node a hn ho] at h
      rw [DOMLoc.compare_same_node a hn.symm (Ne.symm ho)]
      injection h with h
      subst h
      congr 1
      split_ifs <;> omega
    · rcases a.node_trichotomy wf hr hn with hanc | hanc | ⟨h1, h2, hl⟩
      · rw [DOMLoc.compare_contains a hanc] at h
        rw [DOMLoc.compare_contained a wf hanc]
        injection h with h
        subst h
        congr 1
        rcases pointedCompare_cases a l.node l.offset o.node with hp | hp <;>
          rw [hp] <;> norm_num
      · rw [DOMLoc.compare_contained a wf hanc] at h
        rw [DOMLoc.compare_contains a hanc]
        injection h with h
        subst h
        congr 1
        rcases pointedCompare_cases a o.node o.offset l.node with hp | hp <;>
          rw [hp] <;> norm_num
      · rcases hl with hl | hl
        · rw [DOMLoc.compare_disjoint_lt a hr hn h1 h2 hl] at h
          injection h with h
          subst h
          have hgt : lexOrd (a.path o.node) (a.path l.node) = Ordering.gt := by
            rw [lexOrd_swap, hl]
            rfl
          rw [DOMLoc.compare_disjoint_gt a hr.symm (Ne.symm hn) h2 h1 hgt]
          norm_num
        · rw [DOMLoc.compare_disjoint_gt a hr hn h1 h2 hl] at h
          injection h with h
          subst h
          have hlt : lexOrd (a.path o.node) (a.path l.node) = Ordering.lt := by
            rw [lexOrd_swap, hl]
            rfl
          rw [DOMLoc.compare_disjoint_lt a hr.symm (Ne.symm hn) h2 h1 hlt]

theorem DOMLoc.compare_eq_zero_iff (a : Arena) (wf : a.WF) {l o : DOMLoc}
    (hr : a.rootOf l.node = a.rootOf o.node) :
    DOMLoc.compare a l o = Except.ok 0 ↔ l.equals o = true := by
  constructor
  · intro h
    by_contra hne
    have hne2 : l ≠ o := fun hlo => hne (hlo ▸ DOMLoc.equals_refl l)
    by_cases hn : l.node = o.node
    · have ho : l.offset ≠ o.offset := by
        intro hoff
        cases l; cases o
        simp_all
      rw [DOMLoc.compare_same_node a hn ho] at h
      injection h with h
      split_ifs at h <;> exact absurd h (by norm_num)
    · rcases a.node_trichotomy wf hr hn with hanc | hanc | ⟨h1, h2, hl⟩
      · rw [DOMLoc.compare_contains a hanc] at h
        injection h with h
        rcases pointedCompare_cases a l.node l.offset o.node with hp | hp <;>
          rw [hp] at h <;> exact absurd h (by norm_num)
      · rw [DOMLoc.compare_contained a wf hanc] at h
        injection h with h
        split_ifs at h <;> exact absurd h (by norm_num)
      · rcases hl with hl | hl
        · rw [DOMLoc.compare_disjoint_lt a hr hn h1 h2 hl] at h
          injection h with h
          exact absurd h (by norm_num)
        · rw [DOMLoc.compare_disjoint_gt a hr hn h1 h2 hl] at h
          injection h with h
          exact absurd h (by norm_num)
  · intro h
    rw [DOMLoc.equals_iff.mp h]
    exact DOMLoc.compare_refl a o

/-! ### `contains`, `containsNode` and `clip` lemmas -/

theorem DOMSpace.contains_ok (s : DOMSpace) (a : Arena) (wf : a.WF)
    (loc : DOMLoc) : ∃ b, s.contains a loc = Except.ok b := by
  cases h1 : DOMLoc.compare a s.min loc with
  | error e =>
    obtain ⟨rfl, -⟩ := DOMLoc.compare_error_disconnected a wf h1
    exact ⟨false, by simp only [DOMSpace.contains, h1]⟩
  | ok c1 =>
    by_cases hc1 : c1 ≤ 0
    · cases h2 : DOMLoc.compare a s.max loc with
      | error e =>
        obtain ⟨rfl, -⟩ := DOMLoc.compare_error_disconnected a wf h2
        refine ⟨false, ?_⟩
        simp only [DOMSpace.contains, h1, h2]
        rw [if_pos hc1]
      | ok c2 =>
        refine ⟨decide (c2 ≥ 0), ?_⟩
        simp only [DOMSpace.contains, h1, h2]
        rw [if_pos hc1]
    · refine ⟨false, ?_⟩
      simp only [DOMSpace.contains, h1]
      rw [if_neg hc1]

theorem DOMSpace.contains_eval (s : DOMSpace) (a : Arena) {loc : DOMLoc}
    {c1 c2 : Int} (h1 : DOMLoc.compare a s.min loc = Except.ok c1)
    (h2 : DOMLoc.compare a s.max loc = Except.ok c2) :
    s.contains a loc = Except.ok (decide (c1 ≤ 0) && decide (c2 ≥ 0)) := by
  simp only [DOMSpace.contains, h1, h2]
  by_cases hc1 : c1 ≤ 0
  · rw [if_pos hc1]
    simp [hc1]
  · rw [if_neg hc1]
    simp [hc1]

theorem DOMSpace.contains_of_min_pos (s : DOMSpace) (a : Arena) {loc : DOMLoc}
    {c1 : Int} (h1 : DOMLoc.compare a s.min loc = Except.ok c1)
    (hc : 0 < c1) : s.contains a loc = Except.ok false := by
  simp only [DOMSpace.contains, h1]
  rw [if_neg (by omega)]

theorem DOMSpace.containsNode_ok (s : DOMSpace) (a : Arena) (wf : a.WF)
    (n : Nat) : ∃ b, s.containsNode a n = Except.ok b := by
  rw [DOMSpace.containsNode]
  cases hp : a.parentNode n with
  | none => exact ⟨false, rfl⟩
  | some p => exact s.contains_ok a wf _

theorem DOMSpace.containsNode_of_parent (s : DOMSpace) (a : Arena)
    {n p : Nat} (hp : a.parentNode n = some p) :
    s.containsNode a n =
      s.contains a ⟨p, (a.childNodes p).indexOf n⟩ := by
  simp only [DOMSpace.containsNode, hp]

theorem DOMSpace.containsNode_of_parent_none (s : DOMSpace) (a : Arena)
    {n : Nat} (hp : a.parentNode n = none) :
    s.containsNode a n = Except.ok false := by
  simp only [DOMSpace.containsNode, hp]

theorem DOMSpace.clip_of_true (s : DOMSpace) (a : Arena) {loc : DOMLoc}
    (h : s.contains a loc = Except.ok true) :
    s.clip a loc = Except.ok (some loc) := by
  simp [DOMSpace.clip, h]

theorem DOMSpace.clip_of_false (s : DOMSpace) (a : Arena) {loc : DOMLoc}
    (h : s.contains a loc = Except.ok false) :
    s.clip a loc = Except.ok none := by
  simp only [DOMSpace.clip, h]
  rfl

theorem DOMSpace.clip_ok_some (s : DOMSpace) (a : Arena) {loc x : DOMLoc}
    (h : s.clip a loc = Except.ok (some x)) :
    x = loc ∧ s.contains a loc = Except.ok true := by
  rw [DOMSpace.clip] at h
  cases hc : s.contains a loc with
  | error e => rw [hc] at h; exact absurd h (by simp)
  | ok b =>
    rw [hc] at h
    cases b with
    | false => exact absurd h (by simp)
    | true =>
      injection h with h
      injection h with h
      exact ⟨h.symm, rfl⟩

/-! ### Normalization lemmas -/

theorem DOMLoc.normalizedOffset_element (a : Arena) {l : DOMLoc}
    (hk : a.kindOf l.node = NodeKind.element) :
    l.normalizedOffset a =
      Except.ok (min l.offset (a.childNodes l.node).length) := by
  simp only [DOMLoc.normalizedOffset, hk]
  congr 1
  rw [Nat.min_def]
  split_ifs <;> omega

theorem DOMLoc.normalizedOffset_document (a : Arena) {l : DOMLoc}
    (hk : a.kindOf l.node = NodeKind.document) :
    l.normalizedOffset a =
      Except.ok (min l.offset (a.childNodes l.node).length) := by
  simp only [DOMLoc.normalizedOffset, hk]
  congr 1
  rw [Nat.min_def]
  split_ifs <;> omega

theorem DOMLoc.normalizedOffset_fragment (a : Arena) {l : DOMLoc}
    (hk : a.kindOf l.node = NodeKind.documentFragment) :
    l.normalizedOffset a =
      Except.ok (min l.offset (a.childNodes l.node).length) := by
  simp only [DOMLoc.normalizedOffset, hk]
  congr 1
  rw [Nat.min_def]
  split_ifs <;> omega

theorem DOMLoc.normalizedOffset_text (a : Arena) {l : DOMLoc}
    (hk : a.kindOf l.node = NodeKind.text) :
    l.normalizedOffset a = Except.ok (min l.offset (a.textLength l.node)) := by
  simp only [DOMLoc.normalizedOffset, hk]
  congr 1
  rw [Nat.min_def]
  split_ifs <;> omega

theorem DOMLoc.normalizedOffset_other (a : Arena) {l : DOMLoc}
    (hk : a.kindOf l.node = NodeKind.other) :
    l.normalizedOffset a = Except.error DOMErr.unsupportedNodeType := by
  simp only [DOMLoc.normalizedOffset, hk]

theorem DOMLoc.normalizeOffset_of_normalized (a : Arena) {l : DOMLoc}
    (h : l.normalizedOffset a = Except.ok l.offset) :
    l.normalizeOffset a = Except.ok l := by
  simp [DOMLoc.normalizeOffset, h]

/-! ### Relevance and node-kind lemmas -/

theorem DOMSpace.isRelevant_kinds (s : DOMSpace) (a : Arena) {n : Nat}
    (h : s.isRelevant a n = true) :
    a.kindOf n = NodeKind.element ∨ a.kindOf n = NodeKind.text ∨
      a.kindOf n = NodeKind.document ∨
      a.kindOf n = NodeKind.documentFragment := by
  rw [DOMSpace.isRelevant, Bool.and_eq_true] at h
  have h1 := h.1
  simp only [Bool.or_eq_true, beq_iff_eq] at h1
  tauto

theorem Arena.kind_of_parent (a : Arena) (wf : a.WF) {p c : Nat}
    (h : c ∈ a.childNodes p) :
    a.kindOf p = NodeKind.element ∨ a.kindOf p = NodeKind.document ∨
      a.kindOf p = NodeKind.documentFragment := by
  cases hk : a.kindOf p with
  | element => tauto
  | document => tauto
  | documentFragment => tauto
  | text =>
    rw [wf.leaf_kinds p (Or.inl hk)] at h
    exact absurd h (List.not_mem_nil c)
  | other =>
    rw [wf.leaf_kinds p (Or.inr hk)] at h
    exact absurd h (List.not_mem_nil c)

/-! ### Chain and escape lemmas -/

theorem DOMSpace.chainAux_ok (s : DOMSpace) (a : Arena) (wf : a.WF) :
    ∀ (fuel : Nat) (start : Nat),
      ∃ L : List Nat, s.chainAux a fuel (some start) = Except.ok L ∧
        ∀ n ∈ L, n ∈ a.ancestorChain start := by
  intro fuel
  induction fuel with
  | zero =>
    intro start
    exact ⟨[], rfl, by simp⟩
  | succ fuel ih =>
    intro start
    obtain ⟨b, hb⟩ := s.containsNode_ok a wf start
    cases b with
    | false =>
      refine ⟨[], ?_, by simp⟩
      simp only [DOMSpace.chainAux, hb]
    | true =>
      cases hp : a.parentNode start with
      | none =>
        refine ⟨[start], ?_, ?_⟩
        · simp only [DOMSpace.chainAux, hb, hp]
          cases fuel <;> rfl
        · intro n hn
          rw [List.mem_singleton] at hn
          subst hn
          exact a.self_mem_ancestorChain wf n
      | some p =>
        obtain ⟨L, hL, hLmem⟩ := ih p
        refine ⟨start :: L, ?_, ?_⟩
        · simp only [DOMSpace.chainAux, hb, hp, hL]
        · intro n hn
          rw [List.mem_cons] at hn
          rcases hn with rfl | hn
          · exact a.self_mem_ancestorChain wf n
          · rw [a.ancestorChain_parent wf hp]
            exact List.mem_cons_of_mem start (hLmem n hn)

theorem DOMSpace.escapeScan_all_relevant (s : DOMSpace) (a : Arena)
    (first : Option Nat) :
    ∀ (L : List Nat) (normalized : DOMLoc),
      (∀ n ∈ L, s.isRelevant a n = true) →
      s.escapeScan a first L normalized = Except.ok normalized := by
  intro L
  induction L with
  | nil => intro normalized _; rfl
  | cons candidate rest ih =>
    intro normalized hrel
    have hc : s.isRelevant a candidate = true :=
      hrel candidate (List.mem_cons_self _ _)
    simp only [DOMSpace.escapeScan, hc]
    exact ih normalized fun n hn => hrel n (List.mem_cons_of_mem _ hn)

theorem DOMSpace.escape_self (s : DOMSpace) (a : Arena) (wf : a.WF)
    {loc : DOMLoc} (hcont : s.contains a loc = Except.ok true)
    (hnorm : loc.normalizedOffset a = Except.ok loc.offset)
    (hrel : ∀ n ∈ a.ancestorChain loc.node, s.isRelevant a n = true) :
    s.escapeIrrelevantNode a loc = Except.ok loc := by
  have hno := DOMLoc.normalizeOffset_of_normalized a hnorm
  obtain ⟨L, hL, hmem⟩ := s.chainAux_ok a wf (loc.node + 1) loc.node
  simp only [DOMSpace.escapeIrrelevantNode, hcont, hno, hL]
  exact s.escapeScan_all_relevant a _ _ _
    fun n hn => hrel n (hmem n (List.mem_reverse.mp hn))

theorem DOMSpace.escape_scope_error (s : DOMSpace) (a : Arena) {loc : DOMLoc}
    (h : s.contains a loc = Except.ok false) :
    s.escapeIrrelevantNode a loc = Except.error DOMErr.domSpaceScopeError := by
  simp only [DOMSpace.escapeIrrelevantNode, h]

/-! ### `chainRelevant` lemmas -/

theorem DOMSpace.chainRelevant_iff (s : DOMSpace) (a : Arena) (i : Nat) :
    s.chainRelevant a i = true ↔
      ∀ n ∈ a.ancestorChain i, s.isRelevant a n = true := by
  rw [DOMSpace.chainRelevant, List.all_eq_true]

theorem DOMSpace.chainRelevant_self (s : DOMSpace) (a : Arena) (wf : a.WF)
    {i : Nat} (h : s.chainRelevant a i = true) : s.isRelevant a i = true :=
  (s.chainRelevant_iff a i).mp h i (a.self_mem_ancestorChain wf i)

theorem DOMSpace.chainRelevant_parent (s : DOMSpace) (a : Arena) (wf : a.WF)
    {i p : Nat} (hp : a.parentNode i = some p)
    (h : s.chainRelevant a i = true) : s.chainRelevant a p = true := by
  rw [DOMSpace.chainRelevant_iff] at h ⊢
  intro n hn
  apply h
  rw [a.ancestorChain_parent wf hp]
  exact List.mem_cons_of_mem i hn

theorem DOMSpace.chainRelevant_child (s : DOMSpace) (a : Arena) (wf : a.WF)
    {p c : Nat} (hp : a.parentNode c = some p)
    (hrel : s.isRelevant a c = true) (h : s.chainRelevant a p = true) :
    s.chainRelevant a c = true := by
  rw [DOMSpace.chainRelevant_iff] at h ⊢
  intro n hn
  rw [a.ancestorChain_parent wf hp, List.mem_cons] at hn
  rcases hn with rfl | hn
  · exact hrel
  · exact h n hn

/-! ### Branch-unfolding lemmas for `next` and `previous` -/

theorem DOMSpace.next_unfold_elementish (s : DOMSpace) (a : Arena)
    {start esc : DOMLoc}
    (hesc : s.escapeIrrelevantNode a start = Except.ok esc)
    (hk : a.kindOf esc.node = NodeKind.element ∨
      a.kindOf esc.node = NodeKind.document ∨
      a.kindOf esc.node = NodeKind.documentFragment) :
    s.next a start =
      match (a.childNodes esc.node).get? esc.offset with
      | some pointed =>
        if s.isRelevant a pointed then s.clip a ⟨pointed, 0⟩
        else s.clip a ⟨esc.node, esc.offset + 1⟩
      | none =>
        match a.parentNode esc.node with
        | none => Except.ok none
        | some parentNode =>
          s.clip a
            ⟨parentNode, (a.childNodes parentNode).indexOf esc.node + 1⟩ := by
  cases hg : (a.childNodes esc.node).get? esc.offset with
  | some pointed =>
    rcases hk with hk | hk | hk <;>
      · simp only [DOMSpace.next, hesc, hk, hg]
        rw [apply_ite (s.clip a)]
  | none =>
    rcases hk with hk | hk | hk <;>
      · simp only [DOMSpace.next, hesc, hk, hg]

theorem DOMSpace.next_unfold_text (s : DOMSpace) (a : Arena)
    {start esc : DOMLoc}
    (hesc : s.escapeIrrelevantNode a start = Except.ok esc)
    (hk : a.kindOf esc.node = NodeKind.text) :
    s.next a start =
      if esc.offset + 1 ≤ a.textLength esc.node then
        s.clip a ⟨esc.node, esc.offset + 1⟩
      else
        match a.parentNode esc.node with
        | none => Except.ok none
        | some parentNode =>
          s.clip a
            ⟨parentNode, (a.childNodes parentNode).indexOf esc.node + 1⟩ := by
  by_cases hc : esc.offset + 1 ≤ a.textLength esc.node
  · simp only [DOMSpace.next, hesc, hk, hc, if_true]
  · simp only [DOMSpace.next, hesc, hk, hc, if_false]

theorem DOMSpace.previous_unfold_elementish (s : DOMSpace) (a : Arena)
    {start esc : DOMLoc}
    (hesc : s.escapeIrrelevantNode a start = Except.ok esc)
    (hk : a.kindOf esc.node = NodeKind.element ∨
      a.kindOf esc.node = NodeKind.document ∨
      a.kindOf esc.node = NodeKind.documentFragment) :
    s.previous a start =
      match (if esc.offset = 0 then none
             else (a.childNodes esc.node).get? (esc.offset - 1)) with
      | some pointed =>
        if s.isRelevant a pointed then
          s.clip a
            ⟨pointed,
              if a.kindOf pointed = NodeKind.text then a.textLength pointed
              else (a.childNodes pointed).length⟩
        else s.clip a ⟨esc.node, esc.offset - 1⟩
      | none =>
        match a.parentNode esc.node with
        | none => Except.ok none
        | some parentNode =>
          s.clip a ⟨parentNode, (a.childNodes parentNode).indexOf esc.node⟩ := by
  cases hg : (if esc.offset = 0 then none
              else (a.childNodes esc.node).get? (esc.offset - 1)) with
  | some pointed =>
    rcases hk with hk | hk | hk <;>
      · simp only [DOMSpace.previous, hesc, hk, hg]
        rw [apply_ite (s.clip a)]
  | none =>
    rcases hk with hk | hk | hk <;>
      · simp only [DOMSpace.previous, hesc, hk, hg]

theorem DOMSpace.previous_unfold_text (s : DOMSpace) (a : Arena)
    {start esc : DOMLoc}
    (hesc : s.escapeIrrelevantNode a start = Except.ok esc)
    (hk : a.kindOf esc.node = NodeKind.text) :
    s.previous a start =
      if esc.offset ≥ 1 then s.clip a ⟨esc.node, esc.offset - 1⟩
      else
        match a.parentNode esc.node with
        | none => Except.ok none
        | some parentNode =>
          s.clip a ⟨parentNode, (a.childNodes parentNode).indexOf esc.node⟩ := by
  by_cases hc : esc.offset ≥ 1
  · simp only [DOMSpace.previous, hesc, hk, hc, if_true]
  · simp only [DOMSpace.previous, hesc, hk, hc, if_false]

/-! ### Sibling order facts -/

theorem Arena.sibling_facts (a : Arena) (wf : a.WF) {p x y i j : Nat}
    (hx : (a.childNodes p).get? i = some x)
    (hy : (a.childNodes p).get? j = some y) (hij : i < j) :
    x ≠ y ∧ a.rootOf x = a.rootOf y ∧
      (a.path x).isPrefixOf (a.path y) = false ∧
      (a.path y).isPrefixOf (a.path x) = false ∧
      lexOrd (a.path x) (a.path y) = Ordering.lt := by
  have hxm : x ∈ a.childNodes p := List.get?_mem hx
  have hym : y ∈ a.childNodes p := List.get?_mem hy
  have hxi : (a.childNodes p).indexOf x = i :=
    indexOf_eq_of_get?_nodup (wf.child_nodup p) hx
  have hyj : (a.childNodes p).indexOf y = j :=
    indexOf_eq_of_get?_nodup (wf.child_nodup p) hy
  have hxp := (wf.child_parent p x hxm).1
  have hyp := (wf.child_parent p y hym).1
  have hpathx : a.path x = a.path p ++ [i] := by
    rw [a.path_parent wf hxp, hxi]
  have hpathy : a.path y = a.path p ++ [j] := by
    rw [a.path_parent wf hyp, hyj]
  have hne : x ≠ y := by
    intro hxy
    subst hxy
    rw [hxi] at hyj
    omega
  have hlen : (a.path x).length = (a.path y).length := by
    rw [hpathx, hpathy]
    simp
  have hpne : a.path x ≠ a.path y := by
    rw [hpathx, hpathy]
    intro hcontra
    have := (List.append_inj hcontra (by rfl)).2
    injection this with hji
    omega
  refine ⟨hne, ?_, ?_, ?_, ?_⟩
  · rw [a.rootOf_parent wf hxp, a.rootOf_parent wf hyp]
  · rw [Bool.eq_false_iff]
    intro hc
    exact hpne ((List.isPrefixOf_iff_prefix.mp hc).eq_of_length hlen)
  · rw [Bool.eq_false_iff]
    intro hc
    exact hpne ((List.isPrefixOf_iff_prefix.mp hc).eq_of_length hlen.symm).symm
  · rw [hpathx, hpathy, lexOrd_append_left]
    simp only [lexOrd]
    rw [if_pos hij]

/-! ### `make` inversion -/

theorem DOMSpace.make_ok (a : Arena) {mn mx : DOMLoc} {tst : Nat → Bool}
    {s : DOMSpace} (h : DOMSpace.make a mn mx tst = Except.ok s) :
    s = ⟨mn, mx, tst⟩ ∧
      (DOMSpace.mk mn mx tst).isRelevant a mn.node = true ∧
      (DOMSpace.mk mn mx tst).isRelevant a mx.node = true ∧
      ∃ c : Int, DOMLoc.compare a mx mn = Except.ok c ∧ 0 ≤ c := by
  rw [DOMSpace.make] at h
  cases hb : ((DOMSpace.mk mn mx tst).isRelevant a mn.node &&
      (DOMSpace.mk mn mx tst).isRelevant a mx.node) with
  | false =>
    rw [hb] at h
    exact absurd h (by simp)
  | true =>
    rw [hb] at h
    simp only [Bool.not_true, Bool.false_eq_true, if_false] at h
    cases hc : DOMLoc.compare a mx mn with
    | error e =>
      rw [hc] at h
      exact absurd h (by simp)
    | ok c =>
      rw [hc] at h
      have h2 : (if c < 0 then Except.error DOMErr.reversedRangeError
          else Except.ok (DOMSpace.mk mn mx tst)) = Except.ok s := h
      by_cases hneg : c < 0
      · rw [if_pos hneg] at h2
        exact absurd h2 (by simp)
      · rw [if_neg hneg] at h2
        injection h2 with h2
        rw [Bool.and_eq_true] at hb
        exact ⟨h2.symm, hb.1, hb.2, c, rfl, by omega⟩

/-! ### Escape with normalization -/

theorem DOMSpace.escape_normalizes (s : DOMSpace) (a : Arena) (wf : a.WF)
    {loc : DOMLoc} {n : Nat}
    (hcont : s.contains a loc = Except.ok true)
    (hno : loc.normalizedOffset a = Except.ok n)
    (hrel : ∀ nd ∈ a.ancestorChain loc.node, s.isRelevant a nd = true) :
    s.escapeIrrelevantNode a loc = Except.ok ⟨loc.node, n⟩ := by
  have hnorm : loc.normalizeOffset a = Except.ok ⟨loc.node, n⟩ := by
    simp only [DOMLoc.normalizeOffset, hno]
    by_cases he : n = loc.offset
    · rw [if_pos he]
      subst he
      rfl
    · rw [if_neg he]
  obtain ⟨L, hL, hmem⟩ := s.chainAux_ok a wf (loc.node + 1) loc.node
  simp only [DOMSpace.escapeIrrelevantNode, hcont, hnorm, hL]
  exact s.escapeScan_all_relevant a _ _ _
    fun nd hn => hrel nd (hmem nd (List.mem_reverse.mp hn))

/-! ### Boundary containment helpers -/

theorem DOMSpace.contains_at_parent_of_min_false (s : DOMSpace) (a : Arena)
    (wf : a.WF) {P : Nat} (hparent : a.parentNode s.min.node = some P) :
    s.contains a ⟨P, (a.childNodes P).indexOf s.min.node⟩ =
      Except.ok false := by
  have hmem := (wf.parent_mem s.min.node P hparent).2
  have hanc := a.strictAncestor_of_child wf hmem
  have hpc : pointedCompare a P ((a.childNodes P).indexOf s.min.node)
      s.min.node = -1 :=
    pointedCompare_of_hit a (get?_indexOf_of_mem hmem) (Or.inl rfl)
  have hcmp : DOMLoc.compare a s.min
      ⟨P, (a.childNodes P).indexOf s.min.node⟩ = Except.ok 1 := by
    rw [DOMLoc.compare_contained a wf (by exact hanc), hpc]
    norm_num
  exact s.contains_of_min_pos a hcmp (by norm_num)

theorem DOMSpace.contains_after_parent_of_max_false (s : DOMSpace) (a : Arena)
    (wf : a.WF) {P : Nat} (hparent : a.parentNode s.max.node = some P)
    (hroot : a.rootOf s.min.node = a.rootOf s.max.node) :
    s.contains a ⟨P, (a.childNodes P).indexOf s.max.node + 1⟩ =
      Except.ok false := by
  have hmem := (wf.parent_mem s.max.node P hparent).2
  have hanc := a.strictAncestor_of_child wf hmem
  have hidx : (a.childNodes P).get? ((a.childNodes P).indexOf s.max.node) =
      some s.max.node := get?_indexOf_of_mem hmem
  have hpc : pointedCompare a P ((a.childNodes P).indexOf s.max.node + 1)
      s.max.node = 1 := by
    cases hg : (a.childNodes P).get?
        ((a.childNodes P).indexOf s.max.node + 1) with
    | none => exact pointedCompare_of_none a s.max.node hg
    | some X =>
      obtain ⟨hne, hro, hp1, hp2, hlex⟩ :=
        a.sibling_facts wf hidx hg (by omega)
      have hcdp : a.cdp X s.max.node = 2 := by
        apply a.cdp_disjoint_gt hro.symm hp2 hp1
        rw [lexOrd_swap, hlex]
        rfl
      apply pointedCompare_of_miss a hg
      rw [hcdp]
      push_neg
      exact ⟨hne.symm, by decide⟩
  have hcmp : DOMLoc.compare a s.max
      ⟨P, (a.childNodes P).indexOf s.max.node + 1⟩ = Except.ok (-1) := by
    rw [DOMLoc.compare_contained a wf (by exact hanc), hpc]
    norm_num
  have hrootP : a.rootOf s.min.node = a.rootOf P := by
    rw [hroot, a.rootOf_parent wf hparent]
  obtain ⟨c1, hc1, -⟩ := DOMLoc.compare_total a wf
    (l := s.min) (o := ⟨P, (a.childNodes P).indexOf s.max.node + 1⟩) hrootP
  rw [s.contains_eval a hc1 hcmp]
  simp

/-! ### Helpers about normalized offsets -/

theorem DOMLoc.normalized_elementish_le (a : Arena) {l : DOMLoc}
    (hk : a.kindOf l.node = NodeKind.element ∨
      a.kindOf l.node = NodeKind.document ∨
      a.kindOf l.node = NodeKind.documentFragment)
    (hle : l.offset ≤ (a.childNodes l.node).length) :
    l.normalizedOffset a = Except.ok l.offset := by
  rcases hk with hk | hk | hk
  · rw [DOMLoc.normalizedOffset_element a hk]
    congr 1
    omega
  · rw [DOMLoc.normalizedOffset_document a hk]
    congr 1
    omega
  · rw [DOMLoc.normalizedOffset_fragment a hk]
    congr 1
    omega

theorem DOMLoc.normalized_text_le (a : Arena) {l : DOMLoc}
    (hk : a.kindOf l.node = NodeKind.text)
    (hle : l.offset ≤ a.textLength l.node) :
    l.normalizedOffset a = Except.ok l.offset := by
  rw [DOMLoc.normalizedOffset_text a hk]
  congr 1
  omega

theorem DOMLoc.offset_le_of_normalized_elementish (a : Arena) {l : DOMLoc}
    (hk : a.kindOf l.node = NodeKind.element ∨
      a.kindOf l.node = NodeKind.document ∨
      a.kindOf l.node = NodeKind.documentFragment)
    (hnorm : l.normalizedOffset a = Except.ok l.offset) :
    l.offset ≤ (a.childNodes l.node).length := by
  rcases hk with hk | hk | hk
  · rw [DOMLoc.normalizedOffset_element a hk] at hnorm
    injection hnorm with hn
    omega
  · rw [DOMLoc.normalizedOffset_document a hk] at hnorm
    injection hnorm with hn
    omega
  · rw [DOMLoc.normalizedOffset_fragment a hk] at hnorm
    injection hnorm with hn
    omega

theorem DOMLoc.offset_le_of_normalized_text (a : Arena) {l : DOMLoc}
    (hk : a.kindOf l.node = NodeKind.text)
    (hnorm : l.normalizedOffset a = Except.ok l.offset) :
    l.offset ≤ a.textLength l.node := by
  rw [DOMLoc.normalizedOffset_text a hk] at hnorm
  injection hnorm with hn
  omega

/-! ### The round-trip lemmas behind the `next`/`previous` inverse law -/

theorem DOMSpace.next_from_parent_pointer (s : DOMSpace) (a : Arena)
    (wf : a.WF) {x : DOMLoc} {P : Nat} (hx0 : x.offset = 0)
    (hpar : a.parentNode x.node = some P)
    (hchain : s.chainRelevant a x.node = true)
    (hcont : s.contains a x = Except.ok true)
    (hcp : s.contains a ⟨P, (a.childNodes P).indexOf x.node⟩ =
      Except.ok true) :
    s.next a ⟨P, (a.childNodes P).indexOf x.node⟩ = Except.ok (some x) := by
  have hrelx : s.isRelevant a x.node = true := s.chainRelevant_self a wf hchain
  have hmem := (wf.parent_mem x.node P hpar).2
  have hidxlt : (a.childNodes P).indexOf x.node < (a.childNodes P).length :=
    List.indexOf_lt_length.mpr hmem
  have hkP := a.kind_of_parent wf hmem
  have hchainP := s.chainRelevant_parent a wf hpar hchain
  have hescp : s.escapeIrrelevantNode a ⟨P, (a.childNodes P).indexOf x.node⟩ =
      Except.ok ⟨P, (a.childNodes P).indexOf x.node⟩ :=
    s.escape_self a wf hcp
      (DOMLoc.normalized_elementish_le a hkP (Nat.le_of_lt hidxlt))
      ((s.chainRelevant_iff a P).mp hchainP)
  rw [s.next_unfold_elementish a hescp hkP]
  simp only []
  have hg : (a.childNodes P).get? ((a.childNodes P).indexOf x.node) =
      some x.node := get?_indexOf_of_mem hmem
  simp only [hg, hrelx, if_true]
  rw [show (⟨x.node, 0⟩ : DOMLoc) = x by rw [← hx0]]
  exact s.clip_of_true a hcont

theorem DOMSpace.next_of_previous (s : DOMSpace) (a : Arena) (wf : a.WF)
    {x p : DOMLoc}
    (hnorm : x.normalizedOffset a = Except.ok x.offset)
    (hchain : s.chainRelevant a x.node = true)
    (hcont : s.contains a x = Except.ok true)
    (hprev : s.previous a x = Except.ok (some p)) :
    s.next a p = Except.ok (some x) := by
  have hrelx : s.isRelevant a x.node = true := s.chainRelevant_self a wf hchain
  have hrelall := (s.chainRelevant_iff a x.node).mp hchain
  have hesc : s.escapeIrrelevantNode a x = Except.ok x :=
    s.escape_self a wf hcont hnorm hrelall
  have hkinds := s.isRelevant_kinds a hrelx
  by_cases hkt : a.kindOf x.node = NodeKind.text
  · -- text node
    have hlen := DOMLoc.offset_le_of_normalized_text a hkt hnorm
    rw [s.previous_unfold_text a hesc hkt] at hprev
    by_cases ho : x.offset ≥ 1
    · rw [if_pos ho] at hprev
      obtain ⟨hp, hcp⟩ := s.clip_ok_some a hprev
      subst hp
      have hescp : s.escapeIrrelevantNode a ⟨x.node, x.offset - 1⟩ =
          Except.ok ⟨x.node, x.offset - 1⟩ :=
        s.escape_self a wf hcp
          (DOMLoc.normalized_text_le a hkt
            (show x.offset - 1 ≤ a.textLength x.node by omega)) hrelall
      rw [s.next_unfold_text a hescp hkt]
      simp only []
      rw [if_pos (show x.offset - 1 + 1 ≤ a.textLength x.node by omega)]
      rw [show x.offset - 1 + 1 = x.offset from by omega]
      exact s.clip_of_true a hcont
    · rw [if_neg ho] at hprev
      cases hpar : a.parentNode x.node with
      | none =>
        rw [hpar] at hprev
        exact absurd hprev (by simp)
      | some P =>
        rw [hpar] at hprev
        obtain ⟨hp, hcp⟩ := s.clip_ok_some a hprev
        subst hp
        exact s.next_from_parent_pointer a wf (by omega) hpar hchain hcont hcp
  · -- element, document or fragment node
    have hke : a.kindOf x.node = NodeKind.element ∨
        a.kindOf x.node = NodeKind.document ∨
        a.kindOf x.node = NodeKind.documentFragment := by tauto
    have hcnt := DOMLoc.offset_le_of_normalized_elementish a hke hnorm
    rw [s.previous_unfold_elementish a hesc hke] at hprev
    by_cases ho : x.offset = 0
    · rw [if_pos ho] at hprev
      cases hpar : a.parentNode x.node with
      | none =>
        rw [hpar] at hprev
        exact absurd hprev (by simp)
      | some P =>
        rw [hpar] at hprev
        obtain ⟨hp, hcp⟩ := s.clip_ok_some a hprev
        subst hp
        exact s.next_from_parent_pointer a wf ho hpar hchain hcont hcp
    · have hoff : x.offset - 1 < (a.childNodes x.node).length := by omega
      have hg : (a.childNodes x.node).get? (x.offset - 1) =
          some ((a.childNodes x.node).get ⟨x.offset - 1, hoff⟩) :=
        List.get?_eq_get hoff
      set c := (a.childNodes x.node).get ⟨x.offset - 1, hoff⟩ with hcdef
      have hcmem : c ∈ a.childNodes x.node := List.get?_mem hg
      have hcpar := (wf.child_parent x.node c hcmem).1
      have hcidx : (a.childNodes x.node).indexOf c = x.offset - 1 :=
        indexOf_eq_of_get?_nodup (wf.child_nodup x.node) hg
      rw [if_neg ho] at hprev
      simp only [hg] at hprev
      by_cases hrelc : s.isRelevant a c = true
      · rw [if_pos hrelc] at hprev
        have hchainc := s.chainRelevant_child a wf hcpar hrelc hchain
        by_cases hct : a.kindOf c = NodeKind.text
        · rw [if_pos hct] at hprev
          obtain ⟨hp, hcp⟩ := s.clip_ok_some a hprev
          subst hp
          have hescp : s.escapeIrrelevantNode a ⟨c, a.textLength c⟩ =
              Except.ok ⟨c, a.textLength c⟩ :=
            s.escape_self a wf hcp
              (DOMLoc.normalized_text_le a hct
                (show a.textLength c ≤ a.textLength c from le_rfl))
              ((s.chainRelevant_iff a c).mp hchainc)
          rw [s.next_unfold_text a hescp hct]
          simp only []
          rw [if_neg (show ¬(a.textLength c + 1 ≤ a.textLength c) by omega)]
          rw [hcpar]
          simp only [hcidx]
          rw [show x.offset - 1 + 1 = x.offset from by omega]
          exact s.clip_of_true a hcont
        · rw [if_neg hct] at hprev
          obtain ⟨hp, hcp⟩ := s.clip_ok_some a hprev
          subst hp
          have hkc : a.kindOf c = NodeKind.element ∨
              a.kindOf c = NodeKind.document ∨
              a.kindOf c = NodeKind.documentFragment := by
            have := s.isRelevant_kinds a hrelc
            tauto
          have hescp : s.escapeIrrelevantNode a
              ⟨c, (a.childNodes c).length⟩ =
              Except.ok ⟨c, (a.childNodes c).length⟩ :=
            s.escape_self a wf hcp
              (DOMLoc.normalized_elementish_le a hkc
                (show (a.childNodes c).length ≤ (a.childNodes c).length from
                  le_rfl))
              ((s.chainRelevant_iff a c).mp hchainc)
          rw [s.next_unfold_elementish a hescp hkc]
          simp only []
          have hgnone : (a.childNodes c).get? ((a.childNodes c).length) =
              none := List.get?_eq_none.mpr le_rfl
          simp only [hgnone, hcpar, hcidx]
          rw [show x.offset - 1 + 1 = x.offset from by omega]
          exact s.clip_of_true a hcont
      · rw [if_neg hrelc] at hprev
        obtain ⟨hp, hcp⟩ := s.clip_ok_some a hprev
        subst hp
        have hescp : s.escapeIrrelevantNode a ⟨x.node, x.offset - 1⟩ =
            Except.ok ⟨x.node, x.offset - 1⟩ :=
          s.escape_self a wf hcp
            (DOMLoc.normalized_elementish_le a hke
              (show x.offset - 1 ≤ (a.childNodes x.node).length by omega))
            hrelall
        rw [s.next_unfold_elementish a hescp hke]
        simp only []
        simp only [hg, hrelc, Bool.false_eq_true, if_false]
        rw [show x.offset - 1 + 1 = x.offset from by omega]
        exact s.clip_of_true a hcont

theorem DOMSpace.previous_from_after_parent_pointer (s : DOMSpace) (a : Arena)
    (wf : a.WF) {x : DOMLoc} {P : Nat}
    (hxend : (if a.kindOf x.node = NodeKind.text then a.textLength x.node
      else (a.childNodes x.node).length) = x.offset)
    (hpar : a.parentNode x.node = some P)
    (hchain : s.chainRelevant a x.node = true)
    (hcont : s.contains a x = Except.ok true)
    (hcn : s.contains a ⟨P, (a.childNodes P).indexOf x.node + 1⟩ =
      Except.ok true) :
    s.previous a ⟨P, (a.childNodes P).indexOf x.node + 1⟩ =
      Except.ok (some x) := by
  have hrelx : s.isRelevant a x.node = true := s.chainRelevant_self a wf hchain
  have hmem := (wf.parent_mem x.node P hpar).2
  have hidxlt : (a.childNodes P).indexOf x.node < (a.childNodes P).length :=
    List.indexOf_lt_length.mpr hmem
  have hkP := a.kind_of_parent wf hmem
  have hchainP := s.chainRelevant_parent a wf hpar hchain
  have hescn : s.escapeIrrelevantNode a
      ⟨P, (a.childNodes P).indexOf x.node + 1⟩ =
      Except.ok ⟨P, (a.childNodes P).indexOf x.node + 1⟩ :=
    s.escape_self a wf hcn
      (DOMLoc.normalized_elementish_le a hkP
        (show (a.childNodes P).indexOf x.node + 1 ≤ (a.childNodes P).length
          by omega))
      ((s.chainRelevant_iff a P).mp hchainP)
  rw [s.previous_unfold_elementish a hescn hkP]
  simp only []
  rw [if_neg (show ¬((a.childNodes P).indexOf x.node + 1 = 0) by omega)]
  simp only [Nat.add_sub_cancel]
  have hg : (a.childNodes P).get? ((a.childNodes P).indexOf x.node) =
      some x.node := get?_indexOf_of_mem hmem
  simp only [hg, hrelx, if_true]
  rw [hxend]
  exact s.clip_of_true a hcont

theorem DOMSpace.previous_of_next (s : DOMSpace) (a : Arena) (wf : a.WF)
    {x n : DOMLoc}
    (hnorm : x.normalizedOffset a = Except.ok x.offset)
    (hchain : s.chainRelevant a x.node = true)
    (hcont : s.contains a x = Except.ok true)
    (hnext : s.next a x = Except.ok (some n)) :
    s.previous a n = Except.ok (some x) := by
  have hrelx : s.isRelevant a x.node = true := s.chainRelevant_self a wf hchain
  have hrelall := (s.chainRelevant_iff a x.node).mp hchain
  have hesc : s.escapeIrrelevantNode a x = Except.ok x :=
    s.escape_self a wf hcont hnorm hrelall
  have hkinds := s.isRelevant_kinds a hrelx
  by_cases hkt : a.kindOf x.node = NodeKind.text
  · -- text node
    have hlen := DOMLoc.offset_le_of_normalized_text a hkt hnorm
    rw [s.next_unfold_text a hesc hkt] at hnext
    by_cases hin : x.offset + 1 ≤ a.textLength x.node
    · rw [if_pos hin] at hnext
      obtain ⟨hn, hcn⟩ := s.clip_ok_some a hnext
      subst hn
      have hescn : s.escapeIrrelevantNode a ⟨x.node, x.offset + 1⟩ =
          Except.ok ⟨x.node, x.offset + 1⟩ :=
        s.escape_self a wf hcn
          (DOMLoc.normalized_text_le a hkt
            (show x.offset + 1 ≤ a.textLength x.node from hin)) hrelall
      rw [s.previous_unfold_text a hescn hkt]
      simp only []
      rw [if_pos (show x.offset + 1 ≥ 1 by omega)]
      simp only [Nat.add_sub_cancel]
      exact s.clip_of_true a hcont
    · rw [if_neg hin] at hnext
      cases hpar : a.parentNode x.node with
      | none =>
        rw [hpar] at hnext
        exact absurd hnext (by simp)
      | some P =>
        rw [hpar] at hnext
        obtain ⟨hn, hcn⟩ := s.clip_ok_some a hnext
        subst hn
        have hxend : (if a.kindOf x.node = NodeKind.text then
            a.textLength x.node else (a.childNodes x.node).length) =
            x.offset := by
          rw [if_pos hkt]
          omega
        exact s.previous_from_after_parent_pointer a wf hxend hpar hchain
          hcont hcn
  · -- element, document or fragment node
    have hke : a.kindOf x.node = NodeKind.element ∨
        a.kindOf x.node = NodeKind.document ∨
        a.kindOf x.node = NodeKind.documentFragment := by tauto
    have hcnt := DOMLoc.offset_le_of_normalized_elementish a hke hnorm
    rw [s.next_unfold_elementish a hesc hke] at hnext
    cases hg2 : (a.childNodes x.node).get? x.offset with
    | some c =>
      simp only [hg2] at hnext
      have hcmem : c ∈ a.childNodes x.node := List.get?_mem hg2
      have hcpar := (wf.child_parent x.node c hcmem).1
      have hcidx : (a.childNodes x.node).indexOf c = x.offset :=
        indexOf_eq_of_get?_nodup (wf.child_nodup x.node) hg2
      obtain ⟨hlt, -⟩ := List.get?_eq_some.mp hg2
      by_cases hrelc : s.isRelevant a c = true
      · rw [if_pos hrelc] at hnext
        obtain ⟨hn, hcn⟩ := s.clip_ok_some a hnext
        subst hn
        have hchainc := s.chainRelevant_child a wf hcpar hrelc hchain
        by_cases hct : a.kindOf c = NodeKind.text
        · have hescn : s.escapeIrrelevantNode a ⟨c, 0⟩ =
              Except.ok ⟨c, 0⟩ :=
            s.escape_self a wf hcn
              (DOMLoc.normalized_text_le a hct (Nat.zero_le _))
              ((s.chainRelevant_iff a c).mp hchainc)
          rw [s.previous_unfold_text a hescn hct]
          simp only []
          rw [if_neg (show ¬((0 : Nat) ≥ 1) by omega)]
          rw [hcpar]
          simp only [hcidx]
          exact s.clip_of_true a hcont
        · have hkc : a.kindOf c = NodeKind.element ∨
              a.kindOf c = NodeKind.document ∨
              a.kindOf c = NodeKind.documentFragment := by
            have := s.isRelevant_kinds a hrelc
            tauto
          have hescn : s.escapeIrrelevantNode a ⟨c, 0⟩ =
              Except.ok ⟨c, 0⟩ :=
            s.escape_self a wf hcn
              (DOMLoc.normalized_elementish_le a hkc (Nat.zero_le _))
              ((s.chainRelevant_iff a c).mp hchainc)
          rw [s.previous_unfold_elementish a hescn hkc]
          simp only []
          simp only [if_true]
          rw [hcpar]
          simp only [hcidx]
          exact s.clip_of_true a hcont
      · rw [if_neg hrelc] at hnext
        obtain ⟨hn, hcn⟩ := s.clip_ok_some a hnext
        subst hn
        have hescn : s.escapeIrrelevantNode a ⟨x.node, x.offset + 1⟩ =
            Except.ok ⟨x.node, x.offset + 1⟩ :=
          s.escape_self a wf hcn
            (DOMLoc.normalized_elementish_le a hke
              (show x.offset + 1 ≤ (a.childNodes x.node).length by omega))
            hrelall
        rw [s.previous_unfold_elementish a hescn hke]
        simp only []
        rw [if_neg (show ¬(x.offset + 1 = 0) by omega)]
        simp only [Nat.add_sub_cancel]
        simp only [hg2, hrelc, Bool.false_eq_true, if_false]
        exact s.clip_of_true a hcont
    | none =>
      simp only [hg2] at hnext
      cases hpar : a.parentNode x.node with
      | none =>
        rw [hpar] at hnext
        exact absurd hnext (by simp)
      | some P =>
        rw [hpar] at hnext
        obtain ⟨hn, hcn⟩ := s.clip_ok_some a hnext
        subst hn
        have hglen := List.get?_eq_none.mp hg2
        have hxend : (if a.kindOf x.node = NodeKind.text then
            a.textLength x.node else (a.childNodes x.node).length) =
            x.offset := by
          rw [if_neg hkt]
          omega
        exact s.previous_from_after_parent_pointer a wf hxend hpar hchain
          hcont hcn

/-! ### Boundary lemmas: stepping from `max` forward and from `min`
backward always clips to nothing -/

theorem DOMLoc.compare_same_node_lt (a : Arena) {l o : DOMLoc}
    (hn : l.node = o.node) (ho : l.offset < o.offset) :
    DOMLoc.compare a l o = Except.ok (-1) := by
  rw [DOMLoc.compare_same_node a hn (by omega),
    if_pos (by omega : (l.offset : Int) - (o.offset : Int) < 0)]

theorem DOMLoc.compare_same_node_gt (a : Arena) {l o : DOMLoc}
    (hn : l.node = o.node) (ho : o.offset < l.offset) :
    DOMLoc.compare a l o = Except.ok 1 := by
  rw [DOMLoc.compare_same_node a hn (by omega),
    if_neg (by omega : ¬((l.offset : Int) - (o.offset : Int) < 0))]

theorem DOMSpace.contains_false_of_max_lt (s : DOMSpace) (a : Arena)
    (wf : a.WF) {loc : DOMLoc}
    (hroot : a.rootOf s.min.node = a.rootOf loc.node)
    (hmax : DOMLoc.compare a s.max loc = Except.ok (-1)) :
    s.contains a loc = Except.ok false := by
  obtain ⟨c1, hc1, -⟩ := DOMLoc.compare_total a wf hroot
  rw [s.contains_eval a hc1 hmax]
  simp

theorem DOMSpace.next_max_none (s : DOMSpace) (a : Arena) (wf : a.WF)
    {c : Int} (hcmp : DOMLoc.compare a s.max s.min = Except.ok c)
    (hc : 0 ≤ c) (hrelmax : s.isRelevant a s.max.node = true)
    (hchainmax : s.chainRelevant a s.max.node = true) :
    s.next a s.max = Except.ok none := by
  have hroot : a.rootOf s.min.node = a.rootOf s.max.node :=
    (DOMLoc.compare_ok_root a hcmp).symm
  have hminmax : DOMLoc.compare a s.min s.max = Except.ok (-c) :=
    DOMLoc.compare_antisymm a wf hcmp
  have hcontmax : s.contains a s.max = Except.ok true := by
    rw [s.contains_eval a hminmax (DOMLoc.compare_refl a s.max)]
    have hb : (decide ((-c : Int) ≤ 0) && decide ((0 : Int) ≥ 0)) = true := by
      rw [Bool.and_eq_true, decide_eq_true_eq, decide_eq_true_eq]
      omega
    rw [hb]
  have hrelall := (s.chainRelevant_iff a s.max.node).mp hchainmax
  have hkinds := s.isRelevant_kinds a hrelmax
  by_cases hkt : a.kindOf s.max.node = NodeKind.text
  · -- text max node
    obtain ⟨nv, hnoff⟩ : ∃ nv, s.max.normalizedOffset a = Except.ok nv :=
      ⟨_, DOMLoc.normalizedOffset_text a hkt⟩
    have hnv : nv ≤ a.textLength s.max.node ∧ nv ≤ s.max.offset ∧
        (nv = s.max.offset ∨ nv = a.textLength s.max.node) := by
      have h2 := DOMLoc.normalizedOffset_text a hkt (l := s.max)
      rw [hnoff] at h2
      injection h2 with h2
      omega
    have hescm := s.escape_normalizes a wf hcontmax hnoff hrelall
    rw [s.next_unfold_text a hescm hkt]
    simp only []
    by_cases hin : nv + 1 ≤ a.textLength s.max.node
    · rw [if_pos hin]
      apply s.clip_of_false
      apply s.contains_false_of_max_lt a wf (by rw [hroot])
      exact DOMLoc.compare_same_node_lt a rfl
        (show s.max.offset < nv + 1 by omega)
    · rw [if_neg hin]
      cases hpar : a.parentNode s.max.node with
      | none => rfl
      | some P =>
        apply s.clip_of_false
        exact s.contains_after_parent_of_max_false a wf hpar hroot
  · -- element, document or fragment max node
    have hke : a.kindOf s.max.node = NodeKind.element ∨
        a.kindOf s.max.node = NodeKind.document ∨
        a.kindOf s.max.node = NodeKind.documentFragment := by tauto
    obtain ⟨nv, hnoff⟩ : ∃ nv, s.max.normalizedOffset a = Except.ok nv := by
      rcases hke with hk | hk | hk
      · exact ⟨_, DOMLoc.normalizedOffset_element a hk⟩
      · exact ⟨_, DOMLoc.normalizedOffset_document a hk⟩
      · exact ⟨_, DOMLoc.normalizedOffset_fragment a hk⟩
    have hnv : nv ≤ (a.childNodes s.max.node).length ∧ nv ≤ s.max.offset ∧
        (nv = s.max.offset ∨ nv = (a.childNodes s.max.node).length) := by
      rcases hke with hk | hk | hk
      · have h2 := DOMLoc.normalizedOffset_element a hk (l := s.max)
        rw [hnoff] at h2
        injection h2 with h2
        omega
      · have h2 := DOMLoc.normalizedOffset_document a hk (l := s.max)
        rw [hnoff] at h2
        injection h2 with h2
        omega
      · have h2 := DOMLoc.normalizedOffset_fragment a hk (l := s.max)
        rw [hnoff] at h2
        injection h2 with h2
        omega
    have hescm := s.escape_normalizes a wf hcontmax hnoff hrelall
    rw [s.next_unfold_elementish a hescm hke]
    simp only []
    cases hg : (a.childNodes s.max.node).get? nv with
    | some cnode =>
      simp only [hg]
      obtain ⟨hlt, -⟩ := List.get?_eq_some.mp hg
      have hnvraw : nv = s.max.offset := by omega
      have hcmem : cnode ∈ a.childNodes s.max.node := List.get?_mem hg
      by_cases hrelc : s.isRelevant a cnode = true
      · rw [if_pos hrelc]
        apply s.clip_of_false
        apply s.contains_false_of_max_lt a wf
        · rw [hroot]
          show a.rootOf s.max.node = a.rootOf cnode
          rw [a.rootOf_parent wf (wf.child_parent s.max.node cnode hcmem).1]
        · rw [DOMLoc.compare_contains a
            (a.strictAncestor_of_child wf hcmem)]
          rw [pointedCompare_of_hit a (by rw [← hnvraw]; exact hg)
            (Or.inl rfl)]
      · rw [if_neg hrelc]
        apply s.clip_of_false
        apply s.contains_false_of_max_lt a wf (by rw [hroot])
        exact DOMLoc.compare_same_node_lt a rfl
          (show s.max.offset < nv + 1 by omega)
    | none =>
      simp only [hg]
      cases hpar : a.parentNode s.max.node with
      | none => rfl
      | some P =>
        apply s.clip_of_false
        exact s.contains_after_parent_of_max_false a wf hpar hroot

theorem DOMSpace.previous_min_none (s : DOMSpace) (a : Arena) (wf : a.WF)
    {c : Int} (hcmp : DOMLoc.compare a s.max s.min = Except.ok c)
    (hc : 0 ≤ c) (hrelmin : s.isRelevant a s.min.node = true)
    (hchainmin : s.chainRelevant a s.min.node = true) :
    s.previous a s.min = Except.ok none := by
  have hcontmin : s.contains a s.min = Except.ok true := by
    rw [s.contains_eval a (DOMLoc.compare_refl a s.min) hcmp]
    have hb : (decide ((0 : Int) ≤ 0) && decide (c ≥ 0)) = true := by
      rw [Bool.and_eq_true, decide_eq_true_eq, decide_eq_true_eq]
      omega
    rw [hb]
  have hrelall := (s.chainRelevant_iff a s.min.node).mp hchainmin
  have hkinds := s.isRelevant_kinds a hrelmin
  by_cases hkt : a.kindOf s.min.node = NodeKind.text
  · -- text min node
    obtain ⟨nv, hnoff⟩ : ∃ nv, s.min.normalizedOffset a = Except.ok nv :=
      ⟨_, DOMLoc.normalizedOffset_text a hkt⟩
    have hnv : nv ≤ a.textLength s.min.node ∧ nv ≤ s.min.offset := by
      have h2 := DOMLoc.normalizedOffset_text a hkt (l := s.min)
      rw [hnoff] at h2
      injection h2 with h2
      omega
    have hescm := s.escape_normalizes a wf hcontmin hnoff hrelall
    rw [s.previous_unfold_text a hescm hkt]
    simp only []
    by_cases hz : nv ≥ 1
    · rw [if_pos hz]
      apply s.clip_of_false
      apply s.contains_of_min_pos a
        (DOMLoc.compare_same_node_gt a (l := s.min)
          (o := ⟨s.min.node, nv - 1⟩) rfl
          (show nv - 1 < s.min.offset by omega))
      norm_num
    · rw [if_neg hz]
      cases hpar : a.parentNode s.min.node with
      | none => rfl
      | some P =>
        apply s.clip_of_false
        exact s.contains_at_parent_of_min_false a wf hpar
  · -- element, document or fragment min node
    have hke : a.kindOf s.min.node = NodeKind.element ∨
        a.kindOf s.min.node = NodeKind.document ∨
        a.kindOf s.min.node = NodeKind.documentFragment := by tauto
    obtain ⟨nv, hnoff⟩ : ∃ nv, s.min.normalizedOffset a = Except.ok nv := by
      rcases hke with hk | hk | hk
      · exact ⟨_, DOMLoc.normalizedOffset_element a hk⟩
      · exact ⟨_, DOMLoc.normalizedOffset_document a hk⟩
      · exact ⟨_, DOMLoc.normalizedOffset_fragment a hk⟩
    have hnv : nv ≤ (a.childNodes s.min.node).length ∧ nv ≤ s.min.offset := by
      rcases hke with hk | hk | hk
      · have h2 := DOMLoc.normalizedOffset_element a hk (l := s.min)
        rw [hnoff] at h2
        injection h2 with h2
        omega
      · have h2 := DOMLoc.normalizedOffset_document a hk (l := s.min)
        rw [hnoff] at h2
        injection h2 with h2
        omega
      · have h2 := DOMLoc.normalizedOffset_fragment a hk (l := s.min)
        rw [hnoff] at h2
        injection h2 with h2
        omega
    have hescm := s.escape_normalizes a wf hcontmin hnoff hrelall
    rw [s.previous_unfold_elementish a hescm hke]
    simp only []
    by_cases hz : nv = 0
    · rw [if_pos hz]
      cases hpar : a.parentNode s.min.node with
      | none => rfl
      | some P =>
        apply s.clip_of_false
        exact s.contains_at_parent_of_min_false a wf hpar
    · rw [if_neg hz]
      have hoff : nv - 1 < (a.childNodes s.min.node).length := by omega
      have hg : (a.childNodes s.min.node).get? (nv - 1) =
          some ((a.childNodes s.min.node).get ⟨nv - 1, hoff⟩) :=
        List.get?_eq_get hoff
      set cnode := (a.childNodes s.min.node).get ⟨nv - 1, hoff⟩ with hcdef
      have hcmem : cnode ∈ a.childNodes s.min.node := List.get?_mem hg
      simp only [hg]
      by_cases hrelc : s.isRelevant a cnode = true
      · rw [if_pos hrelc]
        apply s.clip_of_false
        have hpc : pointedCompare a s.min.node s.min.offset cnode = 1 := by
          cases hgr : (a.childNodes s.min.node).get? s.min.offset with
          | none => exact pointedCompare_of_none a cnode hgr
          | some X =>
            obtain ⟨hne, hro, hp1, hp2, hlex⟩ :=
              a.sibling_facts wf hg hgr (by omega)
            have hcdp : a.cdp X cnode = 2 := by
              apply a.cdp_disjoint_gt hro.symm hp2 hp1
              rw [lexOrd_swap, hlex]
              rfl
            apply pointedCompare_of_miss a hgr
            rw [hcdp]
            push_neg
            exact ⟨hne.symm, by decide⟩
        have hcmp1 : DOMLoc.compare a s.min
            ⟨cnode, if a.kindOf cnode = NodeKind.text then a.textLength cnode
              else (a.childNodes cnode).length⟩ = Except.ok 1 := by
          rw [DOMLoc.compare_contains a
            (a.strictAncestor_of_child wf hcmem), hpc]
        exact s.contains_of_min_pos a hcmp1 (by norm_num)
      · rw [if_neg hrelc]
        apply s.clip_of_false
        apply s.contains_of_min_pos a
          (DOMLoc.compare_same_node_gt a (l := s.min)
            (o := ⟨s.min.node, nv - 1⟩) rfl
            (show nv - 1 < s.min.offset by omega))
        norm_num

/-! ## The claims -/

/-- C1: for locations in the same tree, `compare` returns -1, 0 or 1; it
is reflexive (`compare(a,a) = 0`) and antisymmetric
(`compare(a,b) = -compare(b,a)`); `compare(a,b) = 0` iff `equals(a,b)`;
when neither node contains the other the result follows document order
(the lexicographic order of root paths); and when one node contains the
other the tie is resolved by `pointedCompare`, comparing the pointed child
of the containing location against the contained node. -/
theorem claim_C1_compare_total_order (a : Arena) (wf : a.WF) (x y : DOMLoc)
    (hr : a.rootOf x.node = a.rootOf y.node) :
    (∃ r : Int, DOMLoc.compare a x y = Except.ok r ∧
      (r = -1 ∨ r = 0 ∨ r = 1)) ∧
    DOMLoc.compare a x x = Except.ok 0 ∧
    (∀ r : Int, DOMLoc.compare a x y = Except.ok r →
      DOMLoc.compare a y x = Except.ok (-r)) ∧
    (DOMLoc.compare a x y = Except.ok 0 ↔ x.equals y = true) ∧
    (x.node ≠ y.node → a.strictAncestor x.node y.node = false →
      a.strictAncestor y.node x.node = false →
      (lexOrd (a.path x.node) (a.path y.node) = Ordering.lt →
        DOMLoc.compare a x y = Except.ok (-1)) ∧
      (lexOrd (a.path x.node) (a.path y.node) = Ordering.gt →
        DOMLoc.compare a x y = Except.ok 1)) ∧
    (a.strictAncestor x.node y.node = true →
      DOMLoc.compare a x y =
        Except.ok (pointedCompare a x.node x.offset y.node)) ∧
    (a.strictAncestor y.node x.node = true →
      DOMLoc.compare a x y =
        Except.ok (if pointedCompare a y.node y.offset x.node > 0 then -1
          else 1)) := by
  refine ⟨DOMLoc.compare_total a wf hr, DOMLoc.compare_refl a x,
    fun r h => DOMLoc.compare_antisymm a wf h,
    DOMLoc.compare_eq_zero_iff a wf hr, ?_,
    fun h => DOMLoc.compare_contains a h,
    fun h => DOMLoc.compare_contained a wf h⟩
  intro hne h1 h2
  have h1p : (a.path x.node).isPrefixOf (a.path y.node) = false := by
    cases hc : (a.path x.node).isPrefixOf (a.path y.node) with
    | false => rfl
    | true =>
      rw [(a.strictAncestor_iff).mpr ⟨hr, hne, hc⟩] at h1
      exact absurd h1 (by simp)
  have h2p : (a.path y.node).isPrefixOf (a.path x.node) = false := by
    cases hc : (a.path y.node).isPrefixOf (a.path x.node) with
    | false => rfl
    | true =>
      rw [(a.strictAncestor_iff).mpr ⟨hr.symm, Ne.symm hne, hc⟩] at h2
      exact absurd h2 (by simp)
  exact ⟨fun hlex => DOMLoc.compare_disjoint_lt a hr hne h1p h2p hlex,
    fun hlex => DOMLoc.compare_disjoint_gt a hr hne h1p h2p hlex⟩

/-- C1 witness: the theorem applied to the two text children of `exTree`
at concrete locations. -/
theorem claim_C1_witness :
    Arena.rootOf exTree 1 = Arena.rootOf exTree 2 ∧
    ((∃ r : Int, DOMLoc.compare exTree ⟨1, 0⟩ ⟨2, 1⟩ = Except.ok r ∧
      (r = -1 ∨ r = 0 ∨ r = 1)) ∧
    DOMLoc.compare exTree ⟨1, 0⟩ ⟨1, 0⟩ = Except.ok 0 ∧
    (∀ r : Int, DOMLoc.compare exTree ⟨1, 0⟩ ⟨2, 1⟩ = Except.ok r →
      DOMLoc.compare exTree ⟨2, 1⟩ ⟨1, 0⟩ = Except.ok (-r)) ∧
    (DOMLoc.compare exTree ⟨1, 0⟩ ⟨2, 1⟩ = Except.ok 0 ↔
      DOMLoc.equals ⟨1, 0⟩ ⟨2, 1⟩ = true) ∧
    ((1 : Nat) ≠ 2 → exTree.strictAncestor 1 2 = false →
      exTree.strictAncestor 2 1 = false →
      (lexOrd (exTree.path 1) (exTree.path 2) = Ordering.lt →
        DOMLoc.compare exTree ⟨1, 0⟩ ⟨2, 1⟩ = Except.ok (-1)) ∧
      (lexOrd (exTree.path 1) (exTree.path 2) = Ordering.gt →
        DOMLoc.compare exTree ⟨1, 0⟩ ⟨2, 1⟩ = Except.ok 1)) ∧
    (exTree.strictAncestor 1 2 = true →
      DOMLoc.compare exTree ⟨1, 0⟩ ⟨2, 1⟩ =
        Except.ok (pointedCompare exTree 1 0 2)) ∧
    (exTree.strictAncestor 2 1 = true →
      DOMLoc.compare exTree ⟨1, 0⟩ ⟨2, 1⟩ =
        Except.ok (if pointedCompare exTree 2 1 1 > 0 then -1 else 1))) :=
  ⟨by decide, claim_C1_compare_total_order exTree
    (exTree.wf_of_wfBool (by decide)) ⟨1, 0⟩ ⟨2, 1⟩ (by decide)⟩

/-- C2 counterexample: over the single childless element of `exSolo`, the
space from (0,5) to (0,7) is constructible, the location (0,6) lies
strictly between `min` and `max` in document order, yet both
`previous((0,6))` and `next((0,6))` are `none`, so neither
`next(previous(x)) = x` nor `previous(next(x)) = x` holds for this
interior location. -/
theorem claim_C2_counterexample :
    DOMSpace.make exSolo ⟨0, 5⟩ ⟨0, 7⟩ exSoloSpace.relevanceTest =
      Except.ok exSoloSpace ∧
    DOMLoc.compare exSolo exSoloSpace.min ⟨0, 6⟩ = Except.ok (-1) ∧
    DOMLoc.compare exSolo exSoloSpace.max ⟨0, 6⟩ = Except.ok 1 ∧
    DOMSpace.previous exSoloSpace exSolo ⟨0, 6⟩ = Except.ok none ∧
    DOMSpace.next exSoloSpace exSolo ⟨0, 6⟩ = Except.ok none :=
  ⟨rfl, rfl, rfl, rfl, rfl⟩

/-- C2 (amended): for every space and every interior location `x` strictly
between `min` and `max` that is normalized and whose node's whole ancestor
chain is relevant, if `previous(x)` is a location `p` then
`next(p) = x`, and if `next(x)` is a location `n` then `previous(n) = x`.
(The counterexample shows the original claim fails when `x` is not
normalized, when an ancestor of `x` is irrelevant, or when the step
returns none for an interior location of a degenerate space.) -/
theorem claim_C2_roundtrip (s : DOMSpace) (a : Arena) (wf : a.WF)
    (x : DOMLoc) (hnorm : x.normalizedOffset a = Except.ok x.offset)
    (hchain : s.chainRelevant a x.node = true)
    (hmin : DOMLoc.compare a s.min x = Except.ok (-1))
    (hmax : DOMLoc.compare a s.max x = Except.ok 1) :
    (∀ p, s.previous a x = Except.ok (some p) →
      s.next a p = Except.ok (some x)) ∧
    (∀ n, s.next a x = Except.ok (some n) →
      s.previous a n = Except.ok (some x)) := by
  have hcont : s.contains a x = Except.ok true := by
    rw [s.contains_eval a hmin hmax]
    rfl
  exact ⟨fun p hp => s.next_of_previous a wf hnorm hchain hcont hp,
    fun n hn => s.previous_of_next a wf hnorm hchain hcont hn⟩

/-- C2 witness: inside `exTree`, stepping back from (0,1) reaches the end
of the first text node and stepping forward returns, and symmetrically for
the second text node. -/
theorem claim_C2_witness :
    DOMSpace.next exTreeSpace exTree ⟨1, 1⟩ = Except.ok (some ⟨0, 1⟩) ∧
    DOMSpace.previous exTreeSpace exTree ⟨2, 0⟩ =
      Except.ok (some ⟨0, 1⟩) :=
  ⟨(claim_C2_roundtrip exTreeSpace exTree (exTree.wf_of_wfBool (by decide))
      ⟨0, 1⟩ (by decide) (by decide) (by decide) (by decide)).1 ⟨1, 1⟩ rfl,
   (claim_C2_roundtrip exTreeSpace exTree (exTree.wf_of_wfBool (by decide))
      ⟨0, 1⟩ (by decide) (by decide) (by decide) (by decide)).2 ⟨2, 0⟩ rfl⟩

/-- C3 counterexample: in `exDeep` with node 2 irrelevant, the space from
(1,0) to (3,1) is constructible (both endpoint nodes are relevant), but
`next(max)` throws the library's internal error instead of returning
none: the `max` endpoint sits inside the irrelevant node 2, whose escape
hits the branch the source marks as unreachable. -/
theorem claim_C3_counterexample :
    DOMSpace.make exDeep ⟨1, 0⟩ ⟨3, 1⟩ exDeepSpace.relevanceTest =
      Except.ok exDeepSpace ∧
    DOMSpace.next exDeepSpace exDeep exDeepSpace.max =
      Except.error DOMErr.internalError :=
  ⟨rfl, rfl⟩

/-- C3 (amended): for every constructible space whose endpoint nodes have
fully relevant ancestor chains, `next(max)` returns none and
`previous(min)` returns none.  (The counterexample shows the original
claim fails when an ancestor of an endpoint is irrelevant: the call then
throws an internal error instead of returning none.) -/
theorem claim_C3_boundary (a : Arena) (wf : a.WF) (mn mx : DOMLoc)
    (tst : Nat → Bool) (s : DOMSpace)
    (hs : DOMSpace.make a mn mx tst = Except.ok s)
    (hchainmin : s.chainRelevant a s.min.node = true)
    (hchainmax : s.chainRelevant a s.max.node = true) :
    s.next a s.max = Except.ok none ∧
    s.previous a s.min = Except.ok none := by
  obtain ⟨rfl, hrelmn, hrelmx, c, hcmp, hc⟩ := DOMSpace.make_ok a hs
  exact ⟨DOMSpace.next_max_none _ a wf hcmp hc hrelmx hchainmax,
    DOMSpace.previous_min_none _ a wf hcmp hc hrelmn hchainmin⟩

/-- C3 witness: over `exTree`'s spanning space both boundary steps return
none. -/
theorem claim_C3_witness :
    DOMSpace.next exTreeSpace exTree exTreeSpace.max = Except.ok none ∧
    DOMSpace.previous exTreeSpace exTree exTreeSpace.min =
      Except.ok none :=
  claim_C3_boundary exTree (exTree.wf_of_wfBool (by decide)) ⟨0, 0⟩ ⟨0, 2⟩
    exTreeSpace.relevanceTest exTreeSpace rfl (by decide) (by decide)

/-- C4: after escaping, `next` steps as described: at an
Element/Document/DocumentFragment location, if no child exists at the
current offset it ascends (to the parent pointing just after the current
node, none at the root); if the child at the offset exists and is
relevant it produces the location inside that child at offset 0; if the
child exists but is irrelevant it produces the same node with the offset
advanced by exactly 1; at a Text location, if `offset+1` is within the
text's length it produces the same node with the offset advanced by 1,
otherwise it ascends.  Each produced location is finally clipped to the
space (`clip`). -/
theorem claim_C4_next_stepping (s : DOMSpace) (a : Arena)
    (start esc : DOMLoc)
    (hesc : s.escapeIrrelevantNode a start = Except.ok esc) :
    ((a.kindOf esc.node = NodeKind.element ∨
      a.kindOf esc.node = NodeKind.document ∨
      a.kindOf esc.node = NodeKind.documentFragment) →
      (∀ c, (a.childNodes esc.node).get? esc.offset = some c →
        (s.isRelevant a c = true → s.next a start = s.clip a ⟨c, 0⟩) ∧
        (s.isRelevant a c = false →
          s.next a start = s.clip a ⟨esc.node, esc.offset + 1⟩)) ∧
      ((a.childNodes esc.node).get? esc.offset = none →
        (∀ P, a.parentNode esc.node = some P →
          s.next a start =
            s.clip a ⟨P, (a.childNodes P).indexOf esc.node + 1⟩) ∧
        (a.parentNode esc.node = none → s.next a start = Except.ok none))) ∧
    (a.kindOf esc.node = NodeKind.text →
      (esc.offset + 1 ≤ a.textLength esc.node →
        s.next a start = s.clip a ⟨esc.node, esc.offset + 1⟩) ∧
      (¬esc.offset + 1 ≤ a.textLength esc.node →
        (∀ P, a.parentNode esc.node = some P →
          s.next a start =
            s.clip a ⟨P, (a.childNodes P).indexOf esc.node + 1⟩) ∧
        (a.parentNode esc.node = none →
          s.next a start = Except.ok none))) := by
  constructor
  · intro hke
    constructor
    · intro c hg
      rw [s.next_unfold_elementish a hesc hke]
      simp only [hg]
      constructor
      · intro hrel
        rw [if_pos hrel]
      · intro hrel
        rw [if_neg (by rw [hrel]; simp)]
    · intro hg
      rw [s.next_unfold_elementish a hesc hke]
      simp only [hg]
      constructor
      · intro P hpar
        rw [hpar]
      · intro hpar
        rw [hpar]
  · intro hkt
    constructor
    · intro hin
      rw [s.next_unfold_text a hesc hkt, if_pos hin]
    · intro hin
      rw [s.next_unfold_text a hesc hkt, if_neg hin]
      constructor
      · intro P hpar
        rw [hpar]
      · intro hpar
        rw [hpar]

/-- C4 witness: stepping from the start of `exTree`'s root descends into
the first (relevant) text child at offset 0, after clipping. -/
theorem claim_C4_witness :
    DOMSpace.next exTreeSpace exTree ⟨0, 0⟩ =
      DOMSpace.clip exTreeSpace exTree ⟨1, 0⟩ :=
  ((((claim_C4_next_stepping exTreeSpace exTree ⟨0, 0⟩ ⟨0, 0⟩ rfl).1
    (Or.inl rfl)).1) 1 rfl).1 rfl

/-- C5: `escapeIrrelevantNode` fails with the scope error when the
location is not contained in the space; and when the location is
contained, already normalized, and every node of the scanned
ancestors-and-self chain is relevant, the very location passed in is
returned. -/
theorem claim_C5_escape (s : DOMSpace) (a : Arena) (loc : DOMLoc) :
    (s.contains a loc = Except.ok false →
      s.escapeIrrelevantNode a loc =
        Except.error DOMErr.domSpaceScopeError) ∧
    (s.contains a loc = Except.ok true →
      loc.normalizedOffset a = Except.ok loc.offset →
      ∀ L, s.chainAux a (loc.node + 1) (some loc.node) = Except.ok L →
        (∀ n ∈ L, s.isRelevant a n = true) →
        s.escapeIrrelevantNode a loc = Except.ok loc) := by
  constructor
  · exact fun h => s.escape_scope_error a h
  · intro hcont hnorm L hL hrel
    have hno := DOMLoc.normalizeOffset_of_normalized a hnorm
    simp only [DOMSpace.escapeIrrelevantNode, hcont, hno, hL]
    exact s.escapeScan_all_relevant a _ _ _
      fun n hn => hrel n (List.mem_reverse.mp hn)

/-- C5 witness: a location outside `exTree`'s spanning space raises the
scope error; a contained, normalized location in a fully relevant chain
is returned unchanged. -/
theorem claim_C5_witness :
    DOMSpace.escapeIrrelevantNode exTreeSpace exTree ⟨0, 9⟩ =
      Except.error DOMErr.domSpaceScopeError ∧
    DOMSpace.escapeIrrelevantNode exTreeSpace exTree ⟨1, 1⟩ =
      Except.ok ⟨1, 1⟩ :=
  ⟨(claim_C5_escape exTreeSpace exTree ⟨0, 9⟩).1 rfl,
   (claim_C5_escape exTreeSpace exTree ⟨1, 1⟩).2 rfl rfl [1] rfl
     (by decide)⟩

/-- C6 counterexample: over `exTree` with node 1 irrelevant, the space
from (1,0) to (0,0) has its `max` strictly preceding its `min` in
document order, yet construction fails with the irrelevant-boundary error
(`CannotEscapeIrrelevantNode`), not with `ReversedRangeError`: the
relevance check runs first, so "fails with the reversed-range error
whenever max precedes min" does not hold as stated. -/
theorem claim_C6_counterexample :
    DOMLoc.compare exTree exIrrelevantReversed.max exIrrelevantReversed.min =
      Except.ok (-1) ∧
    DOMSpace.make exTree ⟨1, 0⟩ ⟨0, 0⟩ exIrrelevantReversed.relevanceTest =
      Except.error DOMErr.cannotEscapeIrrelevantNode ∧
    DOMErr.cannotEscapeIrrelevantNode ≠ DOMErr.reversedRangeError :=
  ⟨rfl, rfl, by decide⟩

/-- C6 (amended): Space construction fails with the irrelevant-boundary
error whenever either endpoint's node is not relevant under the combined
test; when both endpoints are relevant it fails with the reversed-range
error whenever `max` precedes `min` in document order; and when both
endpoints are relevant and `max` does not precede `min`, construction
succeeds.  (The counterexample shows the relevance check precedes the
range check, so the original unconditional reversed-range clause fails.) -/
theorem claim_C6_make (a : Arena) (mn mx : DOMLoc) (tst : Nat → Bool) :
    (((DOMSpace.mk mn mx tst).isRelevant a mn.node = false ∨
      (DOMSpace.mk mn mx tst).isRelevant a mx.node = false) →
      DOMSpace.make a mn mx tst =
        Except.error DOMErr.cannotEscapeIrrelevantNode) ∧
    (∀ c : Int, (DOMSpace.mk mn mx tst).isRelevant a mn.node = true →
      (DOMSpace.mk mn mx tst).isRelevant a mx.node = true →
      DOMLoc.compare a mx mn = Except.ok c → c < 0 →
      DOMSpace.make a mn mx tst =
        Except.error DOMErr.reversedRangeError) ∧
    (∀ c : Int, (DOMSpace.mk mn mx tst).isRelevant a mn.node = true →
      (DOMSpace.mk mn mx tst).isRelevant a mx.node = true →
      DOMLoc.compare a mx mn = Except.ok c → 0 ≤ c →
      DOMSpace.make a mn mx tst = Except.ok ⟨mn, mx, tst⟩) := by
  refine ⟨?_, ?_, ?_⟩
  · intro h
    have hb : ((DOMSpace.mk mn mx tst).isRelevant a mn.node &&
        (DOMSpace.mk mn mx tst).isRelevant a mx.node) = false := by
      rcases h with h | h <;> rw [h] <;> simp
    rw [DOMSpace.make, hb]
    rfl
  · intro c h1 h2 hcmp hneg
    have hb : ((DOMSpace.mk mn mx tst).isRelevant a mn.node &&
        (DOMSpace.mk mn mx tst).isRelevant a mx.node) = true := by
      rw [h1, h2]
      rfl
    rw [DOMSpace.make, hb]
    simp only [Bool.not_true, Bool.false_eq_true, if_false, hcmp]
    rw [if_pos hneg]
  · intro c h1 h2 hcmp hpos
    have hb : ((DOMSpace.mk mn mx tst).isRelevant a mn.node &&
        (DOMSpace.mk mn mx tst).isRelevant a mx.node) = true := by
      rw [h1, h2]
      rfl
    rw [DOMSpace.make, hb]
    simp only [Bool.not_true, Bool.false_eq_true, if_false, hcmp]
    rw [if_neg (by omega)]

/-- C6 witness: the three branches exercised on `exTree`. -/
theorem claim_C6_witness :
    DOMSpace.make exTree ⟨1, 0⟩ ⟨0, 0⟩ (fun n => n == 5) =
      Except.error DOMErr.cannotEscapeIrrelevantNode ∧
    DOMSpace.make exTree ⟨1, 0⟩ ⟨0, 0⟩ (fun _ => true) =
      Except.error DOMErr.reversedRangeError ∧
    DOMSpace.make exTree ⟨0, 0⟩ ⟨0, 2⟩ (fun _ => true) =
      Except.ok ⟨⟨0, 0⟩, ⟨0, 2⟩, fun _ => true⟩ :=
  ⟨(claim_C6_make exTree ⟨1, 0⟩ ⟨0, 0⟩ (fun n => n == 5)).1 (Or.inl rfl),
   (claim_C6_make exTree ⟨1, 0⟩ ⟨0, 0⟩ (fun _ => true)).2.1 (-1) rfl rfl rfl
     (by norm_num),
   (claim_C6_make exTree ⟨0, 0⟩ ⟨0, 2⟩ (fun _ => true)).2.2 1 rfl rfl rfl
     (by norm_num)⟩

/-- C7: `contains(loc)` is true iff `min.compare(loc) ≤ 0` and
`max.compare(loc) ≥ 0`; and when either comparison would fail with the
disconnected-nodes error, `contains` returns false instead of propagating
the error. -/
theorem claim_C7_contains (s : DOMSpace) (a : Arena) (loc : DOMLoc) :
    (∀ c1 c2 : Int, DOMLoc.compare a s.min loc = Except.ok c1 →
      DOMLoc.compare a s.max loc = Except.ok c2 →
      (s.contains a loc = Except.ok true ↔ c1 ≤ 0 ∧ c2 ≥ 0)) ∧
    (DOMLoc.compare a s.min loc =
        Except.error DOMErr.comparingDisconnectedNodes →
      s.contains a loc = Except.ok false) ∧
    (∀ c1 : Int, DOMLoc.compare a s.min loc = Except.ok c1 → c1 ≤ 0 →
      DOMLoc.compare a s.max loc =
        Except.error DOMErr.comparingDisconnectedNodes →
      s.contains a loc = Except.ok false) := by
  refine ⟨?_, ?_, ?_⟩
  · intro c1 c2 h1 h2
    rw [s.contains_eval a h1 h2]
    simp
  · intro h
    simp only [DOMSpace.contains, h]
  · intro c1 h1 hc1 h2
    simp only [DOMSpace.contains, h1]
    rw [if_pos hc1, h2]

/-- C7 witness: a disconnected location yields false; a connected one is
characterized by the two comparison signs. -/
theorem claim_C7_witness :
    DOMSpace.contains ⟨⟨0, 0⟩, ⟨0, 0⟩, fun _ => true⟩ exForest ⟨1, 0⟩ =
      Except.ok false ∧
    (DOMSpace.contains exTreeSpace exTree ⟨0, 1⟩ = Except.ok true ↔
      (-1 : Int) ≤ 0 ∧ (1 : Int) ≥ 0) :=
  ⟨(claim_C7_contains ⟨⟨0, 0⟩, ⟨0, 0⟩, fun _ => true⟩ exForest ⟨1, 0⟩).2.1
     rfl,
   (claim_C7_contains exTreeSpace exTree ⟨0, 1⟩).1 (-1) 1 rfl rfl⟩

/-- C8: `normalizedOffset` clamps the offset to `min(offset, bound)`
where the bound is the child count for Element/Document/DocumentFragment
nodes and the text length for Text nodes; it fails with the
unsupported-node-type error on other kinds; normalization is idempotent,
and `normalizeOffset` returns the very same location when it is already
normalized. -/
theorem claim_C8_normalization (a : Arena) (l : DOMLoc) :
    ((a.kindOf l.node = NodeKind.element ∨
      a.kindOf l.node = NodeKind.document ∨
      a.kindOf l.node = NodeKind.documentFragment) →
      l.normalizedOffset a =
        Except.ok (min l.offset (a.childNodes l.node).length)) ∧
    (a.kindOf l.node = NodeKind.text →
      l.normalizedOffset a =
        Except.ok (min l.offset (a.textLength l.node))) ∧
    (a.kindOf l.node = NodeKind.other →
      l.normalizedOffset a = Except.error DOMErr.unsupportedNodeType) ∧
    (∀ l2, l.normalizeOffset a = Except.ok l2 →
      l2.normalizeOffset a = Except.ok l2) ∧
    (l.normalizedOffset a = Except.ok l.offset →
      l.normalizeOffset a = Except.ok l) := by
  refine ⟨?_, fun hk => DOMLoc.normalizedOffset_text a hk,
    fun hk => DOMLoc.normalizedOffset_other a hk, ?_,
    fun h => DOMLoc.normalizeOffset_of_normalized a h⟩
  · intro hk
    rcases hk with hk | hk | hk
    · exact DOMLoc.normalizedOffset_element a hk
    · exact DOMLoc.normalizedOffset_document a hk
    · exact DOMLoc.normalizedOffset_fragment a hk
  · intro l2 h
    rw [DOMLoc.normalizeOffset] at h
    cases hno : l.normalizedOffset a with
    | error e =>
      rw [hno] at h
      exact absurd h (by simp)
    | ok m =>
      rw [hno] at h
      have h2 : (if m = l.offset then l else ⟨l.node, m⟩) = l2 := by
        injection h
      have hl2 : l2.node = l.node ∧ l2.offset = m := by
        by_cases hme : m = l.offset
        · rw [if_pos hme] at h2
          subst h2
          exact ⟨rfl, hme.symm⟩
        · rw [if_neg hme] at h2
          subst h2
          exact ⟨rfl, rfl⟩
      apply DOMLoc.normalizeOffset_of_normalized
      cases hk2 : a.kindOf l.node with
      | text =>
        have := DOMLoc.normalizedOffset_text a hk2 (l := l)
        rw [hno] at this
        injection this with this
        apply DOMLoc.normalized_text_le a (by rw [hl2.1]; exact hk2)
        rw [hl2.1, hl2.2]
        omega
      | other =>
        rw [DOMLoc.normalizedOffset_other a hk2] at hno
        exact absurd hno (by simp)
      | element =>
        have := DOMLoc.normalizedOffset_element a hk2 (l := l)
        rw [hno] at this
        injection this with this
        apply DOMLoc.normalized_elementish_le a
          (by rw [hl2.1]; exact Or.inl hk2)
        rw [hl2.1, hl2.2]
        omega
      | document =>
        have := DOMLoc.normalizedOffset_document a hk2 (l := l)
        rw [hno] at this
        injection this with this
        apply DOMLoc.normalized_elementish_le a
          (by rw [hl2.1]; exact Or.inr (Or.inl hk2))
        rw [hl2.1, hl2.2]
        omega
      | documentFragment =>
        have := DOMLoc.normalizedOffset_fragment a hk2 (l := l)
        rw [hno] at this
        injection this with this
        apply DOMLoc.normalized_elementish_le a
          (by rw [hl2.1]; exact Or.inr (Or.inr hk2))
        rw [hl2.1, hl2.2]
        omega

/-- C8 witness: the out-of-range offset 7 on `exTree`'s two-child root
clamps to 2, and an in-range location is returned unchanged. -/
theorem claim_C8_witness :
    DOMLoc.normalizedOffset exTree ⟨0, 7⟩ = Except.ok 2 ∧
    DOMLoc.normalizeOffset exTree ⟨0, 1⟩ = Except.ok ⟨0, 1⟩ :=
  ⟨(claim_C8_normalization exTree ⟨0, 7⟩).1 (Or.inl rfl),
   (claim_C8_normalization exTree ⟨0, 1⟩).2.2.2.2 rfl⟩

/-- C9: constructing a space whose endpoints lie in unrelated trees, with
both endpoint nodes relevant, fails with the disconnected-nodes
comparison error raised by the internal `max.compare(min)` call — an
error kind distinct from both documented construction failures. -/
theorem claim_C9_disconnected_make :
    (DOMSpace.mk ⟨0, 0⟩ ⟨1, 0⟩ (fun _ => true)).isRelevant exForest 0 =
      true ∧
    (DOMSpace.mk ⟨0, 0⟩ ⟨1, 0⟩ (fun _ => true)).isRelevant exForest 1 =
      true ∧
    DOMSpace.make exForest ⟨0, 0⟩ ⟨1, 0⟩ (fun _ => true) =
      Except.error DOMErr.comparingDisconnectedNodes ∧
    DOMErr.comparingDisconnectedNodes ≠
      DOMErr.cannotEscapeIrrelevantNode ∧
    DOMErr.comparingDisconnectedNodes ≠ DOMErr.reversedRangeError :=
  ⟨rfl, rfl, rfl, by decide, by decide⟩

/-- C10: `containsNode` returns false for every node without a parent; in
particular, for the space spanning `exTree`'s parentless root,
`containsNode(root)` is false even though every location in the root is
contained. -/
theorem claim_C10_containsNode_parentless (s : DOMSpace) (a : Arena)
    (node : Nat) (h : a.parentNode node = none) :
    s.containsNode a node = Except.ok false ∧
    (DOMSpace.containsNode exTreeSpace exTree 0 = Except.ok false ∧
      ∀ o : Nat, o ≤ 2 →
        DOMSpace.contains exTreeSpace exTree ⟨0, o⟩ = Except.ok true) := by
  refine ⟨s.containsNode_of_parent_none a h, rfl, ?_⟩
  decide

/-- C10 witness: the theorem applied to `exTree`'s root. -/
theorem claim_C10_witness :
    DOMSpace.containsNode exTreeSpace exTree 0 = Except.ok false ∧
    (DOMSpace.containsNode exTreeSpace exTree 0 = Except.ok false ∧
      ∀ o : Nat, o ≤ 2 →
        DOMSpace.contains exTreeSpace exTree ⟨0, o⟩ = Except.ok true) :=
  claim_C10_containsNode_parentless exTreeSpace exTree 0 rfl

end DomMovement
